import Mathlib

/-!
# conventional-pulls: label-driven semantic version bumps

A shallow embedding of `conventionalpulls.go` and the properties of its
label aggregation, label validation and version bump.

Conventions of the embedding

* Go `int` values (pull request identifiers, `VersionChange`) are `Int`; the
  code only compares them, so no wrap-around arises.
* A Go map is an association list with pairwise distinct keys (`GoMap`); the
  order of the list stands for an iteration order, which Go leaves unspecified
  and chooses anew for every `range`. Two lists that are permutations of each
  other are the same map visited in two orders. `labelValues` ranges over the
  label table, and of two keys that agree after lower-casing the one visited
  last wins, so for such a table the result depends on the order: statements
  that depend on the lookups carry the condition that the lower-cased keys
  are distinct, under which every order gives the same lookups
  (`labelValues_get?_table_perm`).
* A call that may panic returns `Run α`: either `panic msg` or `ret a`.
* A Go `(value, error)` result is a pair whose second component is an
  `Option` (`none` is `nil`).
* `strings.ToLower` is a parameter `toLower : String → String`; `asciiToLower`
  is its restriction to ASCII text, used to evaluate examples.
* `PRLabelFetcher` is an interface whose implementation may keep state, so a
  fetcher is a transition `σ → Int → (labels × error) × σ`.
* The semantic-version package is imported, not part of the sources:
  `nextVersion` takes it as a value of `Semver`, and `specSemver` is the package
  as the specification describes it.
* `fmt.Errorf` with one `%q` verb keeps its format and operand; `strconv.Quote`
  is a parameter `quote` of the method `Error`.
-/

namespace ConventionalPulls

/-! ## Go runtime: panics and maps -/

/-- Outcome of a call that either panics with a message or returns. -/
inductive Run (α : Type) where
  | panic (msg : String) : Run α
  | ret (a : α) : Run α
  deriving DecidableEq, Repr

/-- A Go map as an association list; `GoMap.set` keeps keys distinct. -/
abbrev GoMap (κ ν : Type) := List (κ × ν)

/-- The assignment `m[k] = v`: replaces the entry of `k` or adds one. -/
def GoMap.set {κ ν : Type} [DecidableEq κ] : GoMap κ ν → κ → ν → GoMap κ ν
  | [], k, v => [(k, v)]
  | (k', v') :: rest, k, v =>
    if k' = k then (k, v) :: rest else (k', v') :: GoMap.set rest k v

/-- The two-valued index expression `v, ok := m[k]`. -/
def GoMap.get? {κ ν : Type} [DecidableEq κ] : GoMap κ ν → κ → Option ν
  | [], _ => none
  | (k', v') :: rest, k => if k' = k then some v' else GoMap.get? rest k

/-- The index expression `m[k]`, the zero value when `k` is absent. -/
def GoMap.get {κ ν : Type} [DecidableEq κ] (zero : ν) (m : GoMap κ ν) (k : κ) : ν :=
  (GoMap.get? m k).getD zero

/-- The keys of a map, in iteration order. -/
def GoMap.keys {κ ν : Type} (m : GoMap κ ν) : List κ := m.map Prod.fst

/-- ASCII case folding: what `strings.ToLower` does on ASCII text. -/
def asciiToLower (s : String) : String := String.mk (s.data.map Char.toLower)

/-- Insertion of one integer into an ascending list. -/
def insertInt (x : Int) : List Int → List Int
  | [] => [x]
  | y :: ys => if x ≤ y then x :: y :: ys else y :: insertInt x ys

/-- Modelled from the spec: `sort.Ints`, a standard library function that is not
in the sources; it yields the "ascending-sorted list" of its argument, here by
insertion sort. -/
def sortInts : List Int → List Int
  | [] => []
  | x :: xs => insertInt x (sortInts xs)

/-! ## VersionChange -/

/-- The amount to increment a semver. -/
abbrev VersionChange := Int

def VersionChangeNone : VersionChange := 0
def VersionChangePatch : VersionChange := 1
def VersionChangeMinor : VersionChange := 2
def VersionChangeMajor : VersionChange := 3
def versionChangeInvalid : VersionChange := 4

/-- The table `versionChangeNames`. -/
def versionChangeNames : GoMap VersionChange String :=
  [(VersionChangeNone, "None"), (VersionChangePatch, "Patch"),
   (VersionChangeMinor, "Minor"), (VersionChangeMajor, "Major"),
   (versionChangeInvalid, "Invalid")]

/-- Method `valid`: `vc >= 0 && vc < versionChangeInvalid`. -/
def VersionChange.valid (vc : VersionChange) : Bool :=
  decide (vc ≥ 0) && decide (vc < versionChangeInvalid)

/-- Method `mustBeValid`: panics on an invalid value. -/
def VersionChange.mustBeValid (vc : VersionChange) : Run Unit :=
  if !VersionChange.valid vc then
    Run.panic (toString vc ++ " is not a valid VersionChange")
  else Run.ret ()

/-- Method `String`. -/
def VersionChange.String (vc : VersionChange) : String :=
  if !VersionChange.valid vc then GoMap.get "" versionChangeNames versionChangeInvalid
  else GoMap.get "" versionChangeNames vc

/-- Method `greater`: whichever is higher; panics if either value is invalid. -/
def VersionChange.greater (vc other : VersionChange) : Run VersionChange :=
  match VersionChange.mustBeValid vc with
  | Run.panic msg => Run.panic msg
  | Run.ret _ =>
    match VersionChange.mustBeValid other with
    | Run.panic msg => Run.panic msg
    | Run.ret _ => if other > vc then Run.ret other else Run.ret vc

/-! ## Errors -/

/-- The error values of the package. `PRLabelFetcherErr` wraps the fetcher's
error, `PRMissingLabelErr` lists pull requests, and `errorf` is the value of
`fmt.Errorf(format, arg)` with its one argument kept as data. -/
inductive Err (ε : Type) where
  | PRLabelFetcherErr (err : ε) : Err ε
  | PRMissingLabelErr (IDs : List Int) : Err ε
  | errorf (format : String) (arg : String) : Err ε
  deriving DecidableEq, Repr

/-- The text that `fmt.Errorf` builds from a format with one `%q` verb: the
verb is replaced by `quote arg`, where `quote` is `strconv.Quote`. -/
def sprintfQ (quote : String → String) : List Char → String → List Char
  | [], _ => []
  | '%' :: 'q' :: rest, arg => (quote arg).data ++ rest
  | c :: rest, arg => c :: sprintfQ quote rest arg

/-- Method `Error` of the three kinds of error. -/
def Err.Error {ε : Type} (quote : String → String) : Err ε → String
  | Err.PRLabelFetcherErr _ => "error from PRLabelFetcher"
  | Err.PRMissingLabelErr _ => "one or more PRs have no configured labels"
  | Err.errorf format arg => String.mk (sprintfQ quote format.data arg)

/-- Method `Unwrap` of `PRLabelFetcherErr`. -/
def Err.Unwrap {ε : Type} : Err ε → Option ε
  | Err.PRLabelFetcherErr err => some err
  | _ => none

/-! ## Config -/

/-- The built-in label table. -/
def defaultLabelValues : GoMap String VersionChange :=
  [("Non-Production Change", VersionChangeNone),
   ("Patch", VersionChangePatch),
   ("Minor Change", VersionChangeMinor),
   ("Breaking Change", VersionChangeMajor)]

/-- One call of `FetchPRLabels` on a fetcher in state `σ`: the labels and
error it returns, and its next state. -/
abbrev FetchPRLabels (σ ε : Type) := σ → Int → (List String × Option ε) × σ

/-- Configuration values; a `nil` map or fetcher is `none`. -/
structure Config (σ ε : Type) where
  LabelValues : Option (GoMap String VersionChange)
  RequireLabels : Bool
  PRLabelFetcher : Option (FetchPRLabels σ ε)

/-- The loop of `prLabels` over the identifiers still to fetch. -/
def prLabelsLoop {σ ε : Type} (toLower : String → String) (fetch : FetchPRLabels σ ε) :
    List Int → GoMap Int (List String) → σ →
      (Option (GoMap Int (List String)) × Option (Err ε)) × σ
  | [], result, st => ((some result, none), st)
  | id :: rest, result, st =>
    match fetch st id with
    | ((_, some err), st') => ((none, some (Err.PRLabelFetcherErr err)), st')
    | ((labels, none), st') =>
      prLabelsLoop toLower fetch rest (GoMap.set result id (labels.map toLower)) st'

/-- Method `prLabels`. -/
def Config.prLabels {σ ε : Type} (toLower : String → String) (cfg : Config σ ε) (st : σ)
    (prIDs : List Int) :
    Run ((Option (GoMap Int (List String)) × Option (Err ε)) × σ) :=
  match cfg.PRLabelFetcher with
  | none => Run.panic "PRLabelFetcher shant be nil"
  | some fetch => Run.ret (prLabelsLoop toLower fetch prIDs [] st)

/-- The loop of `labelValues`: `result[strings.ToLower(k)] = v`. -/
def labelValuesLoop (toLower : String → String) :
    List (String × VersionChange) → GoMap String VersionChange → GoMap String VersionChange
  | [], result => result
  | (k, v) :: rest, result => labelValuesLoop toLower rest (GoMap.set result (toLower k) v)

/-- The table `labels` that `labelValues` starts from: `defaultLabelValues`
unless `cfg.LabelValues` is not `nil`. -/
def Config.effectiveTable {σ ε : Type} (cfg : Config σ ε) : GoMap String VersionChange :=
  match cfg.LabelValues with
  | some custom => custom
  | none => defaultLabelValues

/-- Method `labelValues`: the effective table with lower-cased keys. The table
is visited in the order of its list, one of the orders in which Go may range
over the map; of two keys that agree after lower-casing the later one wins. -/
def Config.labelValues {σ ε : Type} (toLower : String → String) (cfg : Config σ ε) :
    GoMap String VersionChange :=
  labelValuesLoop toLower cfg.effectiveTable []

/-- The severity a label resolves to, the index expression
`labelValues[strings.ToLower(label)]` of `maxVersionChange`: `None` when the
label is absent from the table. -/
def Config.resolve {σ ε : Type} (toLower : String → String) (cfg : Config σ ε)
    (label : String) : VersionChange :=
  GoMap.get 0 (cfg.labelValues toLower) (toLower label)

/-- A label list has a label of the table: some label equals, after lower-casing,
the lower-casing of a key of the effective table. -/
def Config.hasKnownLabel {σ ε : Type} (toLower : String → String) (cfg : Config σ ε)
    (labels : List String) : Prop :=
  ∃ l ∈ labels, ∃ key ∈ GoMap.keys cfg.effectiveTable, toLower key = toLower l

/-- The loop of `containsAnyLabel`. -/
def containsAnyLabelLoop (toLower : String → String) (labelValues : GoMap String VersionChange) :
    List String → Bool
  | [] => false
  | label :: rest =>
    match GoMap.get? labelValues (toLower label) with
    | some _ => true
    | none => containsAnyLabelLoop toLower labelValues rest

/-- Method `containsAnyLabel`. -/
def Config.containsAnyLabel {σ ε : Type} (toLower : String → String) (cfg : Config σ ε)
    (labels : List String) : Bool :=
  containsAnyLabelLoop toLower (cfg.labelValues toLower) labels

/-- The loop of `maxVersionChange`. -/
def maxVersionChangeLoop (toLower : String → String) (labelValues : GoMap String VersionChange) :
    List String → VersionChange → Run VersionChange
  | [], change => Run.ret change
  | label :: rest, change =>
    let labelChange := GoMap.get 0 labelValues (toLower label)
    match VersionChange.greater labelChange change with
    | Run.panic msg => Run.panic msg
    | Run.ret change' => maxVersionChangeLoop toLower labelValues rest change'

/-- Method `maxVersionChange`. -/
def Config.maxVersionChange {σ ε : Type} (toLower : String → String) (cfg : Config σ ε)
    (labels : List String) : Run VersionChange :=
  maxVersionChangeLoop toLower (cfg.labelValues toLower) labels VersionChangeNone

/-- The second loop of `requireLabels`, over the sorted identifiers. -/
def requireLabelsLoop {σ ε : Type} (toLower : String → String) (cfg : Config σ ε)
    (prLabels : GoMap Int (List String)) : List Int → List Int → List Int
  | [], IDs => IDs
  | id :: rest, IDs =>
    let labels := GoMap.get [] prLabels id
    if !cfg.containsAnyLabel toLower labels then
      requireLabelsLoop toLower cfg prLabels rest (IDs ++ [id])
    else requireLabelsLoop toLower cfg prLabels rest IDs

/-- Method `requireLabels`. -/
def Config.requireLabels {σ ε : Type} (toLower : String → String) (cfg : Config σ ε)
    (prLabels : GoMap Int (List String)) : Option (Err ε) :=
  if !cfg.RequireLabels then none
  else
    let prIDs := sortInts (GoMap.keys prLabels)
    let IDs := requireLabelsLoop toLower cfg prLabels prIDs []
    if IDs.length > 0 then some (Err.PRMissingLabelErr IDs) else none

/-- The loop of `PRVersionChange` over the entries of the label map. -/
def versionChangeLoop {σ ε : Type} (toLower : String → String) (cfg : Config σ ε) :
    List (Int × List String) → VersionChange → Run VersionChange
  | [], versionChange => Run.ret versionChange
  | (_, labels) :: rest, versionChange =>
    match cfg.maxVersionChange toLower labels with
    | Run.panic msg => Run.panic msg
    | Run.ret change =>
      match VersionChange.greater change versionChange with
      | Run.panic msg => Run.panic msg
      | Run.ret versionChange' => versionChangeLoop toLower cfg rest versionChange'

/-- Method `PRVersionChange`. A `nil` label map has no entries. -/
def Config.PRVersionChange {σ ε : Type} (toLower : String → String) (cfg : Config σ ε) (st : σ)
    (pullRequestID : List Int) : Run ((VersionChange × Option (Err ε)) × σ) :=
  match cfg.prLabels toLower st pullRequestID with
  | Run.panic msg => Run.panic msg
  | Run.ret ((_, some err), st') => Run.ret ((0, some err), st')
  | Run.ret ((prLabels, none), st') =>
    match cfg.requireLabels toLower (prLabels.getD []) with
    | some err => Run.ret ((0, some err), st')
    | none =>
      match versionChangeLoop toLower cfg (prLabels.getD []) VersionChangeNone with
      | Run.panic msg => Run.panic msg
      | Run.ret versionChange => Run.ret ((versionChange, none), st')

/-! ## The version bump -/

/-- The part of the semantic-version package that `nextVersion` calls.
`NewVersion` is `none` when the package returns an error; `zero` is the zero
value of `semver.Version`. -/
structure Semver (V : Type) where
  NewVersion : String → Option V
  IncPatch : V → V
  IncMinor : V → V
  IncMajor : V → V
  Original : V → String
  zero : V

/-- Function `nextVersion`. -/
def nextVersion {V ε : Type} (semver : Semver V) (previousVersion : String)
    (bump : VersionChange) : Run (String × Option (Err ε)) :=
  match VersionChange.mustBeValid bump with
  | Run.panic msg => Run.panic msg
  | Run.ret _ =>
    match semver.NewVersion previousVersion with
    | none => Run.ret ("", some (Err.errorf "could not parse semver from %q" previousVersion))
    | some prev =>
      let next :=
        if bump = VersionChangeNone then prev
        else if bump = VersionChangePatch then semver.IncPatch prev
        else if bump = VersionChangeMinor then semver.IncMinor prev
        else if bump = VersionChangeMajor then semver.IncMajor prev
        else semver.zero
      Run.ret (semver.Original next, none)

/-- Method `NextVersion`. -/
def Config.NextVersion {V σ ε : Type} (toLower : String → String) (semver : Semver V)
    (cfg : Config σ ε) (st : σ) (prevVersion : String) (pullRequestID : List Int) :
    Run ((String × Option (Err ε)) × σ) :=
  match cfg.PRVersionChange toLower st pullRequestID with
  | Run.panic msg => Run.panic msg
  | Run.ret ((_, some err), st') => Run.ret (("", some err), st')
  | Run.ret ((bump, none), st') =>
    match nextVersion semver prevVersion bump with
    | Run.panic msg => Run.panic msg
    | Run.ret r => Run.ret (r, st')

/-! ## The semantic-version primitive -/

/-- Modelled from the spec: the type `semver.Version` of the semantic-version
package, which is imported and not in the sources: "numeric major/minor/patch
components with an optional formatting prefix", together with the text it was
parsed from. -/
structure Version where
  major : Nat
  minor : Nat
  patch : Nat
  original : String
  deriving DecidableEq, Repr

/-- Modelled from the spec: number parsing inside `semver.NewVersion` (package
not in the sources): the number that a run of decimal digits denotes. -/
def numeralValue (cs : List Char) : Nat := cs.foldl (fun n c => 10 * n + (c.toNat - 48)) 0

/-- Modelled from the spec: component parsing inside `semver.NewVersion` (package
not in the sources): one "numeric" component is a non-empty run of decimal
digits read in base ten. -/
def parseNumeral (cs : List Char) : Option Nat :=
  match cs with
  | [] => none
  | _ :: _ => if cs.all Char.isDigit then some (numeralValue cs) else none

/-- Modelled from the spec: the splitting inside `semver.NewVersion` (package not
in the sources) of a version text into its "major/minor/patch components", at
each dot. -/
def splitOnDot : List Char → List (List Char)
  | [] => [[]]
  | c :: cs =>
    if c = '.' then [] :: splitOnDot cs
    else
      match splitOnDot cs with
      | [] => [[c]]
      | h :: t => (c :: h) :: t

/-- Modelled from the spec: prefix handling inside `semver.NewVersion` (package
not in the sources): a version text without its "optional formatting prefix". -/
def stripV : List Char → List Char
  | 'v' :: rest => rest
  | cs => cs

/-- Modelled from the spec: prefix handling of the semantic-version package (not
in the sources): the "optional formatting prefix" of a version text, a leading
"v". -/
def originalVPrefix (original : String) : String :=
  match original.data with
  | 'v' :: _ => "v"
  | _ => ""

/-- Modelled from the spec: serialization in the semantic-version package (not in
the sources): the three components joined by dots, as in "v1.1.0" for "v1". -/
def Version.format (v : Version) : String :=
  toString v.major ++ "." ++ toString v.minor ++ "." ++ toString v.patch

/-- Modelled from the spec: `semver.NewVersion` (package not in the sources):
"parse a version string into numeric major/minor/patch components with an
optional formatting prefix": an optional "v", then one to three numerals
separated by dots, a missing minor or patch being 0. Anything else is a parse
failure. -/
def Version.NewVersion (v : String) : Option Version :=
  match splitOnDot (stripV v.data) with
  | [a] =>
    match parseNumeral a with
    | some M => some { major := M, minor := 0, patch := 0, original := v }
    | none => none
  | [a, b] =>
    match parseNumeral a, parseNumeral b with
    | some M, some m => some { major := M, minor := m, patch := 0, original := v }
    | _, _ => none
  | [a, b, c] =>
    match parseNumeral a, parseNumeral b, parseNumeral c with
    | some M, some m, some p => some { major := M, minor := m, patch := p, original := v }
    | _, _, _ => none
  | _ => none

/-- Modelled from the spec: `IncPatch` of the semantic-version package (not in the
sources): "`Patch` increments the patch component and resets nothing else",
serialized with the prefix of the original text. -/
def Version.IncPatch (v : Version) : Version :=
  let vNext : Version := { v with patch := v.patch + 1 }
  { vNext with original := originalVPrefix v.original ++ vNext.format }

/-- Modelled from the spec: `IncMinor` of the semantic-version package (not in the
sources): "`Minor` increments minor and resets patch to 0". -/
def Version.IncMinor (v : Version) : Version :=
  let vNext : Version := { v with minor := v.minor + 1, patch := 0 }
  { vNext with original := originalVPrefix v.original ++ vNext.format }

/-- Modelled from the spec: `IncMajor` of the semantic-version package (not in the
sources): "`Major` increments major and resets minor and patch to 0". -/
def Version.IncMajor (v : Version) : Version :=
  let vNext : Version := { v with major := v.major + 1, minor := 0, patch := 0 }
  { vNext with original := originalVPrefix v.original ++ vNext.format }

/-- Modelled from the spec: `Original` of the semantic-version package (not in the
sources): "serialize back to the original textual convention". -/
def Version.Original (v : Version) : String := v.original

/-- Modelled from the spec: the semantic-version package that `nextVersion` is
linked against, which is imported and not in the sources. -/
def specSemver : Semver Version where
  NewVersion := Version.NewVersion
  IncPatch := Version.IncPatch
  IncMinor := Version.IncMinor
  IncMajor := Version.IncMajor
  Original := Version.Original
  zero := { major := 0, minor := 0, patch := 0, original := "" }

/-! ## Definitions used in the statements and proofs -/

/-- The running maximum that the aggregation loops compute. -/
def maxFrom (init : VersionChange) (xs : List VersionChange) : VersionChange :=
  xs.foldl (fun c x => max x c) init

/-- The severity of one label list: the maximum of what its labels resolve to. -/
def Config.severity {σ ε : Type} (toLower : String → String) (cfg : Config σ ε)
    (labels : List String) : VersionChange :=
  maxFrom VersionChangeNone (labels.map (cfg.resolve toLower))

/-- The identifiers that `requireLabels` reports: the keys of the label map, in
ascending order, whose labels are all absent from the table. -/
def missingIDs {σ ε : Type} (toLower : String → String) (cfg : Config σ ε)
    (prLabels : GoMap Int (List String)) : List Int :=
  (sortInts (GoMap.keys prLabels)).filter
    (fun id => !cfg.containsAnyLabel toLower (GoMap.get [] prLabels id))

/-- The label map that `prLabels` builds when every fetch succeeds and the
fetcher answers `labelsOf id` for `id`. -/
def labelMap (toLower : String → String) (labelsOf : Int → List String) :
    List Int → GoMap Int (List String) → GoMap Int (List String)
  | [], acc => acc
  | id :: rest, acc =>
    labelMap toLower labelsOf rest (GoMap.set acc id ((labelsOf id).map toLower))

/-- A fetcher without state that answers from a table of labels and never fails. -/
def tableFetcher (labels : List (Int × List String)) : FetchPRLabels Unit String :=
  fun st id => ((GoMap.get [] labels id, none), st)

/-- The labels of the example batches of the test suite. -/
def exampleLabels : List (Int × List String) :=
  [(1, ["foo", "bar", "minor change"]), (2, ["Baz", "QUX", "Patch"]), (3, []), (4, ["a"])]

/-- The default configuration over `exampleLabels`. -/
def exampleConfig (requireLabels : Bool) : Config Unit String :=
  { LabelValues := none, RequireLabels := requireLabels,
    PRLabelFetcher := some (tableFetcher exampleLabels) }

/-- The text of the version `M.m.p` behind the prefix of `v`. -/
def versionText (v : String) (M m p : Nat) : String :=
  originalVPrefix v ++ (toString M ++ "." ++ toString m ++ "." ++ toString p)

/-- Quoting of a text without characters to escape: the text between two
double quotes. -/
def plainQuote (s : String) : String :=
  String.singleton (Char.ofNat 34) ++ s ++ String.singleton (Char.ofNat 34)

/-- The effective table with each key lower-cased, entry by entry. -/
def Config.loweredTable {σ ε : Type} (toLower : String → String) (cfg : Config σ ε) :
    List (String × VersionChange) :=
  cfg.effectiveTable.map (fun e => (toLower e.1, e.2))

/-- The fold of `greater` over a list of severities, as in `maxVersionChange`. -/
def greaterLoop : List VersionChange → VersionChange → Run VersionChange
  | [], change => Run.ret change
  | x :: rest, change =>
    match VersionChange.greater x change with
    | Run.panic msg => Run.panic msg
    | Run.ret change' => greaterLoop rest change'

/-- A table that spells the default labels in upper case, in another order. -/
def upperCaseConfig : Config Unit String :=
  { LabelValues := some [("BREAKING CHANGE", VersionChangeMajor), ("PATCH", VersionChangePatch),
      ("NON-PRODUCTION CHANGE", VersionChangeNone), ("MINOR CHANGE", VersionChangeMinor)],
    RequireLabels := false, PRLabelFetcher := none }

/-- The state of the fetcher after it has been called on `ids` in turn. -/
def fetcherState {σ ε : Type} (fetch : FetchPRLabels σ ε) (st : σ) (ids : List Int) : σ :=
  ids.foldl (fun s id => (fetch s id).2) st

/-- A fetcher that records the identifiers it is called on, answers from
`exampleLabels`, and fails on the identifier `failing`. -/
def loggingFetcher (failing : Int) : FetchPRLabels (List Int) String :=
  fun log id =>
    ((GoMap.get [] exampleLabels id, if id = failing then some "fetch failed" else none),
      log ++ [id])

/-- The default configuration over `loggingFetcher`. -/
def loggingConfig (failing : Int) (requireLabels : Bool) : Config (List Int) String :=
  { LabelValues := none, RequireLabels := requireLabels,
    PRLabelFetcher := some (loggingFetcher failing) }

/-- The table of the test suite with the one key "b", mapped to None. -/
def bConfig : Config Unit String :=
  { LabelValues := some [("b", VersionChangeNone)], RequireLabels := false,
    PRLabelFetcher := none }

/-- A configuration without a fetcher: the zero value of `Config`. -/
def nilFetcherConfig : Config Unit String :=
  { LabelValues := none, RequireLabels := false, PRLabelFetcher := none }

/-- The labels of the "missing label" batch of the test suite. -/
def missingLabelLabels : List (Int × List String) :=
  [(1, ["foo", "bar"]), (2, ["Baz", "QUX", "Patch"]), (3, ["non-production change"])]

/-- The default configuration over `missingLabelLabels`, labels required. -/
def missingLabelConfig : Config Unit String :=
  { LabelValues := none, RequireLabels := true,
    PRLabelFetcher := some (tableFetcher missingLabelLabels) }

/-- The labels of the `prLabels` test: pull request 3 has none. -/
def prLabelsTestLabels : List (Int × List String) :=
  [(1, ["foo", "bar"]), (2, ["Baz", "QUX"]), (3, [])]

/-- The default configuration over `prLabelsTestLabels`. -/
def prLabelsTestConfig : Config Unit String :=
  { LabelValues := none, RequireLabels := false,
    PRLabelFetcher := some (tableFetcher prLabelsTestLabels) }

/-- A configuration with the table `table` and labels required, over a
fetcher that answers from `labels`. -/
def tableConfig (table : GoMap String VersionChange) (labels : List (Int × List String)) :
    Config Unit String :=
  { LabelValues := some table, RequireLabels := true,
    PRLabelFetcher := some (tableFetcher labels) }

/-- A table with two keys that agree after lower-casing: "Bad" mapped out of
range and, visited after it, "bad" mapped to Patch. -/
def shadowedTable : GoMap String VersionChange :=
  [("Bad", 7), ("bad", VersionChangePatch)]

/-- The default configuration over `exampleLabels` with the default table
written out in another order. -/
def reorderedDefaultConfig : Config Unit String :=
  { LabelValues := some [("Breaking Change", VersionChangeMajor), ("Patch", VersionChangePatch),
      ("Non-Production Change", VersionChangeNone), ("Minor Change", VersionChangeMinor)],
    RequireLabels := true, PRLabelFetcher := some (tableFetcher exampleLabels) }

/-- The map with the keys "A" for Patch and "a" for Major, visited "A" first. -/
def collidingTable : GoMap String VersionChange :=
  [("A", VersionChangePatch), ("a", VersionChangeMajor)]

/-- The same map as `collidingTable`, visited "a" first. -/
def collidingTableReversed : GoMap String VersionChange :=
  [("a", VersionChangeMajor), ("A", VersionChangePatch)]

/-- The map with the keys "B" for Minor and "b" for None, visited "B" first. -/
def minorTable : GoMap String VersionChange :=
  [("B", VersionChangeMinor), ("b", VersionChangeNone)]

/-- The same map as `minorTable`, visited "b" first. -/
def minorTableReversed : GoMap String VersionChange :=
  [("b", VersionChangeNone), ("B", VersionChangeMinor)]

/-! ## Lemmas: severities -/

theorem valid_iff (vc : VersionChange) :
    VersionChange.valid vc = true ↔ 0 ≤ vc ∧ vc < 4 := by
  simp [VersionChange.valid, versionChangeInvalid]

theorem mustBeValid_of_valid {vc : VersionChange} (h : VersionChange.valid vc = true) :
    VersionChange.mustBeValid vc = Run.ret () := by
  simp [VersionChange.mustBeValid, h]

theorem mustBeValid_of_not_valid {vc : VersionChange} (h : VersionChange.valid vc = false) :
    VersionChange.mustBeValid vc =
      Run.panic (toString vc ++ " is not a valid VersionChange") := by
  simp [VersionChange.mustBeValid, h]

theorem greater_of_valid {a b : VersionChange} (ha : VersionChange.valid a = true)
    (hb : VersionChange.valid b = true) :
    VersionChange.greater a b = Run.ret (max a b) := by
  unfold VersionChange.greater
  rw [mustBeValid_of_valid ha, mustBeValid_of_valid hb]
  by_cases h : b > a
  · simp only [h, if_true]
    rw [max_eq_right (le_of_lt h)]
  · simp only [h, if_false]
    rw [max_eq_left (not_lt.mp h)]

theorem valid_max {a b : VersionChange} (ha : VersionChange.valid a = true)
    (hb : VersionChange.valid b = true) : VersionChange.valid (max a b) = true := by
  rcases max_choice a b with h | h <;> rw [h] <;> assumption

theorem valid_none : VersionChange.valid VersionChangeNone = true := by decide

/-! ## Lemmas: maps -/

theorem GoMap.get?_set_self {κ ν : Type} [DecidableEq κ] (m : GoMap κ ν) (k : κ) (v : ν) :
    GoMap.get? (GoMap.set m k v) k = some v := by
  induction m with
  | nil => simp [GoMap.set, GoMap.get?]
  | cons e rest ih =>
    obtain ⟨k', v'⟩ := e
    by_cases h : k' = k
    · simp [GoMap.set, GoMap.get?, h]
    · simp [GoMap.set, GoMap.get?, h, ih]

theorem GoMap.get?_set_other {κ ν : Type} [DecidableEq κ] (m : GoMap κ ν) (k k₂ : κ) (v : ν)
    (hne : k ≠ k₂) : GoMap.get? (GoMap.set m k v) k₂ = GoMap.get? m k₂ := by
  induction m with
  | nil => simp [GoMap.set, GoMap.get?, hne]
  | cons e rest ih =>
    obtain ⟨k', v'⟩ := e
    by_cases h : k' = k
    · subst h
      simp [GoMap.set, GoMap.get?, hne]
    · by_cases h2 : k' = k₂
      · subst h2
        simp only [GoMap.set, h, if_false, GoMap.get?, if_true]
      · simp only [GoMap.set, h, if_false, GoMap.get?, h2, ih]

theorem GoMap.get?_eq_none_iff {κ ν : Type} [DecidableEq κ] (m : GoMap κ ν) (k : κ) :
    GoMap.get? m k = none ↔ k ∉ GoMap.keys m := by
  induction m with
  | nil => simp [GoMap.get?, GoMap.keys]
  | cons e rest ih =>
    obtain ⟨k', v'⟩ := e
    by_cases h : k' = k
    · simp [GoMap.get?, GoMap.keys, h]
    · have h' : ¬ k = k' := fun hk => h hk.symm
      simp only [GoMap.get?, h, if_false, ih]
      simp [GoMap.keys, h']

theorem GoMap.mem_of_get? {κ ν : Type} [DecidableEq κ] (m : GoMap κ ν) (k : κ) (v : ν)
    (h : GoMap.get? m k = some v) : (k, v) ∈ m := by
  induction m with
  | nil => simp [GoMap.get?] at h
  | cons e rest ih =>
    obtain ⟨k', v'⟩ := e
    by_cases hk : k' = k
    · simp [GoMap.get?, hk] at h
      simp [hk, h]
    · simp only [GoMap.get?, hk, if_false] at h
      exact List.mem_cons_of_mem _ (ih h)

theorem GoMap.get?_of_mem {κ ν : Type} [DecidableEq κ] (m : GoMap κ ν) (k : κ) (v : ν)
    (hnd : (GoMap.keys m).Nodup) (h : (k, v) ∈ m) : GoMap.get? m k = some v := by
  induction m with
  | nil => simp at h
  | cons e rest ih =>
    obtain ⟨k', v'⟩ := e
    simp only [GoMap.keys, List.map_cons, List.nodup_cons] at hnd
    rcases List.mem_cons.mp h with heq | hmem
    · simp only [Prod.mk.injEq] at heq
      simp [GoMap.get?, heq.1, heq.2]
    · have hk : k' ≠ k := by
        intro hk
        apply hnd.1
        rw [hk]
        exact List.mem_map.mpr ⟨(k, v), hmem, rfl⟩
      simp only [GoMap.get?, hk, if_false]
      exact ih hnd.2 hmem

theorem GoMap.keys_set {κ ν : Type} [DecidableEq κ] (m : GoMap κ ν) (k : κ) (v : ν) :
    GoMap.keys (GoMap.set m k v) =
      if k ∈ GoMap.keys m then GoMap.keys m else GoMap.keys m ++ [k] := by
  induction m with
  | nil => simp [GoMap.set, GoMap.keys]
  | cons e rest ih =>
    obtain ⟨k', v'⟩ := e
    by_cases h : k' = k
    · subst h
      simp [GoMap.set, GoMap.keys]
    · have h' : ¬ k = k' := fun hk => h hk.symm
      simp only [GoMap.keys] at ih
      simp only [GoMap.set, h, if_false, GoMap.keys, List.map_cons, List.mem_cons, h', false_or,
        ih]
      split <;> simp

theorem GoMap.nodup_keys_set {κ ν : Type} [DecidableEq κ] (m : GoMap κ ν) (k : κ) (v : ν)
    (hnd : (GoMap.keys m).Nodup) : (GoMap.keys (GoMap.set m k v)).Nodup := by
  rw [GoMap.keys_set]
  split
  · exact hnd
  · rename_i hk
    exact List.Nodup.append hnd (List.nodup_singleton k) (by simpa using hk)

/-! ## Lemmas: sorting -/

theorem insertInt_perm (x : Int) (l : List Int) : (insertInt x l).Perm (x :: l) := by
  induction l with
  | nil => simp [insertInt]
  | cons y ys ih =>
    unfold insertInt
    split
    · exact List.Perm.refl _
    · exact (List.Perm.cons y ih).trans (List.Perm.swap x y ys)

theorem sortInts_perm (l : List Int) : (sortInts l).Perm l := by
  induction l with
  | nil => exact List.Perm.refl _
  | cons x xs ih => exact (insertInt_perm x _).trans (List.Perm.cons x ih)

theorem insertInt_sorted (x : Int) (l : List Int) (h : l.Sorted (· ≤ ·)) :
    (insertInt x l).Sorted (· ≤ ·) := by
  induction l with
  | nil => simp [insertInt]
  | cons y ys ih =>
    unfold insertInt
    split
    · rename_i hxy
      refine List.sorted_cons.mpr ⟨?_, h⟩
      intro b hb
      rcases List.mem_cons.mp hb with rfl | hb
      · exact hxy
      · exact le_trans hxy (List.rel_of_sorted_cons h b hb)
    · rename_i hxy
      refine List.sorted_cons.mpr ⟨?_, ih (List.Sorted.of_cons h)⟩
      intro b hb
      rcases List.mem_cons.mp ((insertInt_perm x ys).subset hb) with rfl | hb
      · exact le_of_lt (not_le.mp hxy)
      · exact List.rel_of_sorted_cons h b hb

theorem sortInts_sorted (l : List Int) : (sortInts l).Sorted (· ≤ ·) := by
  induction l with
  | nil => simp [sortInts]
  | cons x xs ih => exact insertInt_sorted x _ ih

theorem sortInts_strict (l : List Int) (h : l.Nodup) : (sortInts l).Sorted (· < ·) :=
  (sortInts_sorted l).lt_of_le ((sortInts_perm l).nodup_iff.mpr h)

theorem sortInts_eq_of_perm {l₁ l₂ : List Int} (h : l₁.Perm l₂) : sortInts l₁ = sortInts l₂ :=
  List.eq_of_perm_of_sorted (((sortInts_perm l₁).trans h).trans (sortInts_perm l₂).symm)
    (sortInts_sorted l₁) (sortInts_sorted l₂)

/-! ## Lemmas: the label table -/

theorem labelValuesLoop_get?_none (toLower : String → String)
    (tbl : List (String × VersionChange)) (acc : GoMap String VersionChange) (k : String) :
    GoMap.get? (labelValuesLoop toLower tbl acc) k = none ↔
      GoMap.get? acc k = none ∧ ∀ e ∈ tbl, toLower e.1 ≠ k := by
  induction tbl generalizing acc with
  | nil => simp [labelValuesLoop]
  | cons e rest ih =>
    obtain ⟨k', v'⟩ := e
    simp only [labelValuesLoop, ih, List.mem_cons, forall_eq_or_imp]
    by_cases h : toLower k' = k
    · subst h
      simp [GoMap.get?_set_self]
    · rw [GoMap.get?_set_other _ _ _ _ h]
      simp [h]

theorem labelValuesLoop_get?_some (toLower : String → String)
    (tbl : List (String × VersionChange)) (acc : GoMap String VersionChange) (k : String)
    (v : VersionChange) (h : GoMap.get? (labelValuesLoop toLower tbl acc) k = some v) :
    GoMap.get? acc k = some v ∨ ∃ e ∈ tbl, toLower e.1 = k ∧ e.2 = v := by
  induction tbl generalizing acc with
  | nil => exact Or.inl h
  | cons e rest ih =>
    obtain ⟨k', v'⟩ := e
    simp only [labelValuesLoop] at h
    rcases ih _ h with h1 | ⟨e, he, hk, hv⟩
    · by_cases hk : toLower k' = k
      · subst hk
        rw [GoMap.get?_set_self] at h1
        exact Or.inr ⟨(k', v'), List.mem_cons_self _ _, rfl, Option.some.inj h1⟩
      · rw [GoMap.get?_set_other _ _ _ _ hk] at h1
        exact Or.inl h1
    · exact Or.inr ⟨e, List.mem_cons_of_mem _ he, hk, hv⟩

theorem labelValues_get?_none {σ ε : Type} (toLower : String → String) (cfg : Config σ ε)
    (k : String) :
    GoMap.get? (cfg.labelValues toLower) k = none ↔ ∀ e ∈ cfg.effectiveTable, toLower e.1 ≠ k := by
  simp [Config.labelValues, labelValuesLoop_get?_none, GoMap.get?]

theorem labelValues_isSome {σ ε : Type} (toLower : String → String) (cfg : Config σ ε)
    (k : String) :
    (GoMap.get? (cfg.labelValues toLower) k).isSome = true ↔
      ∃ key ∈ GoMap.keys cfg.effectiveTable, toLower key = k := by
  rw [← not_iff_not, Bool.not_eq_true, Option.not_isSome, Option.isNone_iff_eq_none,
    labelValues_get?_none]
  simp [GoMap.keys]

theorem resolve_valid {σ ε : Type} (toLower : String → String) (cfg : Config σ ε)
    (hvalid : ∀ e ∈ cfg.effectiveTable, VersionChange.valid e.2 = true) (label : String) :
    VersionChange.valid (cfg.resolve toLower label) = true := by
  unfold Config.resolve GoMap.get
  cases h : GoMap.get? (cfg.labelValues toLower) (toLower label) with
  | none => exact valid_none
  | some v =>
    rcases labelValuesLoop_get?_some toLower _ _ _ _ h with h1 | ⟨e, he, _, hv⟩
    · simp [GoMap.get?] at h1
    · simpa [← hv] using hvalid e he

theorem containsAnyLabelLoop_iff (toLower : String → String)
    (labelValues : GoMap String VersionChange) (labels : List String) :
    containsAnyLabelLoop toLower labelValues labels = true ↔
      ∃ l ∈ labels, (GoMap.get? labelValues (toLower l)).isSome = true := by
  induction labels with
  | nil => simp [containsAnyLabelLoop]
  | cons l rest ih =>
    unfold containsAnyLabelLoop
    cases h : GoMap.get? labelValues (toLower l) with
    | none => simp [ih, h]
    | some v => simp [h]

theorem containsAnyLabel_eq_true_iff {σ ε : Type} (toLower : String → String) (cfg : Config σ ε)
    (labels : List String) :
    cfg.containsAnyLabel toLower labels = true ↔
      ∃ l ∈ labels, ∃ key ∈ GoMap.keys cfg.effectiveTable, toLower key = toLower l := by
  simp only [Config.containsAnyLabel, containsAnyLabelLoop_iff, labelValues_isSome]

theorem containsAnyLabel_map_toLower {σ ε : Type} (toLower : String → String)
    (hidem : ∀ s, toLower (toLower s) = toLower s) (cfg : Config σ ε) (labels : List String) :
    cfg.containsAnyLabel toLower (labels.map toLower) = cfg.containsAnyLabel toLower labels := by
  rw [Bool.eq_iff_iff, containsAnyLabel_eq_true_iff, containsAnyLabel_eq_true_iff]
  simp [hidem]

/-! ## Lemmas: the maximum of a list of severities -/

theorem le_maxFrom (init : VersionChange) (xs : List VersionChange) : init ≤ maxFrom init xs := by
  induction xs generalizing init with
  | nil => exact le_refl _
  | cons x rest ih => exact le_trans (le_max_right x init) (ih _)

theorem mem_le_maxFrom (init : VersionChange) (xs : List VersionChange) :
    ∀ x ∈ xs, x ≤ maxFrom init xs := by
  induction xs generalizing init with
  | nil => simp
  | cons y rest ih =>
    intro x hx
    rcases List.mem_cons.mp hx with rfl | hx
    · exact le_trans (le_max_left x init) (le_maxFrom _ rest)
    · exact ih _ x hx

theorem maxFrom_mem (init : VersionChange) (xs : List VersionChange) :
    maxFrom init xs = init ∨ maxFrom init xs ∈ xs := by
  induction xs generalizing init with
  | nil => exact Or.inl rfl
  | cons y rest ih =>
    have hstep : maxFrom init (y :: rest) = maxFrom (max y init) rest := rfl
    rw [hstep]
    rcases ih (max y init) with h | h
    · rw [h]
      rcases max_choice y init with hm | hm
      · exact Or.inr (by rw [hm]; exact List.mem_cons_self _ _)
      · exact Or.inl hm
    · exact Or.inr (List.mem_cons_of_mem _ h)

theorem maxFrom_valid (init : VersionChange) (xs : List VersionChange)
    (hinit : VersionChange.valid init = true) (hxs : ∀ x ∈ xs, VersionChange.valid x = true) :
    VersionChange.valid (maxFrom init xs) = true := by
  rcases maxFrom_mem init xs with h | h
  · rw [h]; exact hinit
  · exact hxs _ h

theorem maxFrom_perm (init : VersionChange) {xs ys : List VersionChange} (h : xs.Perm ys) :
    maxFrom init xs = maxFrom init ys := by
  induction h generalizing init with
  | nil => rfl
  | cons x _ ih => exact ih _
  | swap x y l =>
    simp only [maxFrom, List.foldl]
    rw [max_left_comm]
  | trans _ _ ih₁ ih₂ => exact (ih₁ _).trans (ih₂ _)

/-! ## Lemmas: ASCII case folding -/

theorem char_toLower_idem (c : Char) : Char.toLower (Char.toLower c) = Char.toLower c := by
  unfold Char.toLower
  by_cases h : c.toNat ≥ 65 ∧ c.toNat ≤ 90
  · have hv : (c.toNat + 32).isValidChar := by
      left; omega
    have e : (Char.ofNat (c.toNat + 32)).toNat = c.toNat + 32 := by
      unfold Char.ofNat
      rw [dif_pos hv]
      rfl
    simp only [h, and_self, if_true, e]
    rw [if_neg (by omega)]
  · simp only [h, if_false]

theorem asciiToLower_idem (s : String) : asciiToLower (asciiToLower s) = asciiToLower s := by
  have h : (Char.toLower ∘ Char.toLower) = Char.toLower := funext char_toLower_idem
  simp [asciiToLower, h]

/-! ## Lemmas: the aggregation loops -/

theorem maxVersionChangeLoop_eq (toLower : String → String)
    (labelValues : GoMap String VersionChange) (labels : List String) (change : VersionChange)
    (hc : VersionChange.valid change = true)
    (hl : ∀ l ∈ labels, VersionChange.valid (GoMap.get 0 labelValues (toLower l)) = true) :
    maxVersionChangeLoop toLower labelValues labels change =
      Run.ret (maxFrom change (labels.map (fun l => GoMap.get 0 labelValues (toLower l)))) := by
  induction labels generalizing change with
  | nil => rfl
  | cons l rest ih =>
    have hl0 := hl l (List.mem_cons_self _ _)
    simp only [maxVersionChangeLoop, greater_of_valid hl0 hc]
    rw [ih _ (valid_max hl0 hc) (fun x hx => hl x (List.mem_cons_of_mem _ hx))]
    rfl

theorem maxVersionChange_eq {σ ε : Type} (toLower : String → String) (cfg : Config σ ε)
    (hvalid : ∀ e ∈ cfg.effectiveTable, VersionChange.valid e.2 = true) (labels : List String) :
    cfg.maxVersionChange toLower labels = Run.ret (cfg.severity toLower labels) :=
  maxVersionChangeLoop_eq toLower _ labels _ valid_none
    (fun l _ => resolve_valid toLower cfg hvalid l)

theorem severity_valid {σ ε : Type} (toLower : String → String) (cfg : Config σ ε)
    (hvalid : ∀ e ∈ cfg.effectiveTable, VersionChange.valid e.2 = true) (labels : List String) :
    VersionChange.valid (cfg.severity toLower labels) = true := by
  apply maxFrom_valid _ _ valid_none
  intro x hx
  obtain ⟨l, _, rfl⟩ := List.mem_map.mp hx
  exact resolve_valid toLower cfg hvalid l

theorem versionChangeLoop_eq {σ ε : Type} (toLower : String → String) (cfg : Config σ ε)
    (hvalid : ∀ e ∈ cfg.effectiveTable, VersionChange.valid e.2 = true)
    (m : List (Int × List String)) (versionChange : VersionChange)
    (hv : VersionChange.valid versionChange = true) :
    versionChangeLoop toLower cfg m versionChange =
      Run.ret (maxFrom versionChange (m.map (fun e => cfg.severity toLower e.2))) := by
  induction m generalizing versionChange with
  | nil => rfl
  | cons e rest ih =>
    obtain ⟨id, labels⟩ := e
    have hs := severity_valid toLower cfg hvalid labels
    simp only [versionChangeLoop, maxVersionChange_eq toLower cfg hvalid, greater_of_valid hs hv]
    rw [ih _ (valid_max hs hv)]
    rfl

theorem severity_map_toLower {σ ε : Type} (toLower : String → String)
    (hidem : ∀ s, toLower (toLower s) = toLower s) (cfg : Config σ ε) (labels : List String) :
    cfg.severity toLower (labels.map toLower) = cfg.severity toLower labels := by
  have h : (cfg.resolve toLower ∘ toLower) = cfg.resolve toLower := by
    funext l
    simp [Config.resolve, hidem]
  simp [Config.severity, List.map_map, h]

/-! ## Lemmas: validation -/

theorem requireLabelsLoop_eq {σ ε : Type} (toLower : String → String) (cfg : Config σ ε)
    (prLabels : GoMap Int (List String)) (prIDs IDs : List Int) :
    requireLabelsLoop toLower cfg prLabels prIDs IDs =
      IDs ++ prIDs.filter
        (fun id => !cfg.containsAnyLabel toLower (GoMap.get [] prLabels id)) := by
  induction prIDs generalizing IDs with
  | nil => simp [requireLabelsLoop]
  | cons id rest ih =>
    unfold requireLabelsLoop
    by_cases h : cfg.containsAnyLabel toLower (GoMap.get [] prLabels id) = true
    · simp [h, ih]
    · simp only [Bool.not_eq_true] at h
      simp [h, ih]

theorem requireLabels_eq {σ ε : Type} (toLower : String → String) (cfg : Config σ ε)
    (prLabels : GoMap Int (List String)) :
    cfg.requireLabels toLower prLabels =
      if cfg.RequireLabels = true ∧ missingIDs toLower cfg prLabels ≠ [] then
        some (Err.PRMissingLabelErr (missingIDs toLower cfg prLabels))
      else none := by
  unfold Config.requireLabels
  cases hr : cfg.RequireLabels with
  | false => simp
  | true =>
    simp only [requireLabelsLoop_eq, List.nil_append, Bool.not_true, Bool.false_eq_true,
      if_false, true_and]
    by_cases hm : missingIDs toLower cfg prLabels = []
    · simp only [missingIDs] at hm
      simp [hm, missingIDs]
    · have hlen : (missingIDs toLower cfg prLabels).length > 0 :=
        List.length_pos.mpr hm
      simp only [missingIDs] at hlen hm
      simp [hlen, hm, missingIDs]

/-! ## Lemmas: fetching -/

theorem prLabelsLoop_cons_ok {σ ε : Type} (toLower : String → String)
    (fetch : FetchPRLabels σ ε) (id : Int) (rest : List Int) (acc : GoMap Int (List String))
    (st st' : σ) (labels : List String) (h : fetch st id = ((labels, none), st')) :
    prLabelsLoop toLower fetch (id :: rest) acc st =
      prLabelsLoop toLower fetch rest (GoMap.set acc id (labels.map toLower)) st' := by
  rw [prLabelsLoop, h]

theorem prLabelsLoop_cons_err {σ ε : Type} (toLower : String → String)
    (fetch : FetchPRLabels σ ε) (id : Int) (rest : List Int) (acc : GoMap Int (List String))
    (st st' : σ) (labels : List String) (err : ε) (h : fetch st id = ((labels, some err), st')) :
    prLabelsLoop toLower fetch (id :: rest) acc st =
      ((none, some (Err.PRLabelFetcherErr err)), st') := by
  rw [prLabelsLoop, h]

theorem prLabelsLoop_of_success {σ ε : Type} (toLower : String → String)
    (fetch : FetchPRLabels σ ε) (labelsOf : Int → List String) (ids : List Int)
    (hfetch : ∀ s, ∀ id ∈ ids, (fetch s id).1 = (labelsOf id, none))
    (acc : GoMap Int (List String)) (st : σ) :
    ∃ st', prLabelsLoop toLower fetch ids acc st =
      ((some (labelMap toLower labelsOf ids acc), none), st') := by
  induction ids generalizing acc st with
  | nil => exact ⟨st, rfl⟩
  | cons id rest ih =>
    have h := hfetch st id (List.mem_cons_self _ _)
    obtain ⟨st', hst'⟩ := ih (fun s x hx => hfetch s x (List.mem_cons_of_mem _ hx))
      (GoMap.set acc id ((labelsOf id).map toLower)) (fetch st id).2
    refine ⟨st', ?_⟩
    simp only [labelMap]
    rw [← hst']
    exact prLabelsLoop_cons_ok toLower fetch id rest acc st _ _ (Prod.ext h rfl)

theorem GoMap.mem_set {κ ν : Type} [DecidableEq κ] (m : GoMap κ ν) (k : κ) (v : ν)
    (e : κ × ν) (h : e ∈ GoMap.set m k v) : e = (k, v) ∨ e ∈ m := by
  induction m with
  | nil => simpa [GoMap.set] using h
  | cons e' rest ih =>
    obtain ⟨k', v'⟩ := e'
    by_cases hk : k' = k
    · simp only [GoMap.set, hk, if_true, List.mem_cons] at h
      rcases h with h | h
      · exact Or.inl h
      · exact Or.inr (List.mem_cons_of_mem _ h)
    · simp only [GoMap.set, hk, if_false, List.mem_cons] at h
      rcases h with h | h
      · exact Or.inr (by rw [h]; exact List.mem_cons_self _ _)
      · rcases ih h with h' | h'
        · exact Or.inl h'
        · exact Or.inr (List.mem_cons_of_mem _ h')

theorem labelMap_nodup (toLower : String → String) (labelsOf : Int → List String)
    (ids : List Int) (acc : GoMap Int (List String)) (hacc : (GoMap.keys acc).Nodup) :
    (GoMap.keys (labelMap toLower labelsOf ids acc)).Nodup := by
  induction ids generalizing acc with
  | nil => exact hacc
  | cons id rest ih => exact ih _ (GoMap.nodup_keys_set _ _ _ hacc)

theorem labelMap_keys (toLower : String → String) (labelsOf : Int → List String)
    (ids : List Int) (acc : GoMap Int (List String)) (id : Int) :
    id ∈ GoMap.keys (labelMap toLower labelsOf ids acc) ↔ id ∈ GoMap.keys acc ∨ id ∈ ids := by
  induction ids generalizing acc with
  | nil => simp [labelMap]
  | cons x rest ih =>
    simp only [labelMap, ih, GoMap.keys_set, List.mem_cons]
    split
    · rename_i hx
      constructor
      · rintro (h | h)
        · exact Or.inl h
        · exact Or.inr (Or.inr h)
      · rintro (h | h | h)
        · exact Or.inl h
        · exact Or.inl (h ▸ hx)
        · exact Or.inr h
    · simp only [List.mem_append, List.mem_singleton]
      tauto

theorem labelMap_entries (toLower : String → String) (labelsOf : Int → List String)
    (ids : List Int) (acc : GoMap Int (List String))
    (hacc : ∀ e ∈ acc, e.2 = (labelsOf e.1).map toLower) :
    ∀ e ∈ labelMap toLower labelsOf ids acc, e.2 = (labelsOf e.1).map toLower := by
  induction ids generalizing acc with
  | nil => exact hacc
  | cons x rest ih =>
    apply ih
    intro e he
    rcases GoMap.mem_set _ _ _ _ he with h | h
    · rw [h]
    · exact hacc e h

theorem labelMap_mem_iff (toLower : String → String) (labelsOf : Int → List String)
    (ids : List Int) (e : Int × List String) :
    e ∈ labelMap toLower labelsOf ids [] ↔ e.1 ∈ ids ∧ e.2 = (labelsOf e.1).map toLower := by
  constructor
  · intro he
    refine ⟨?_, labelMap_entries toLower labelsOf ids [] (by simp) e he⟩
    have hk : e.1 ∈ GoMap.keys (labelMap toLower labelsOf ids []) :=
      List.mem_map.mpr ⟨e, he, rfl⟩
    simpa [GoMap.keys] using (labelMap_keys toLower labelsOf ids [] e.1).mp hk
  · rintro ⟨hid, hl⟩
    have hk : e.1 ∈ GoMap.keys (labelMap toLower labelsOf ids []) :=
      (labelMap_keys toLower labelsOf ids [] e.1).mpr (Or.inr hid)
    obtain ⟨e', he', hfst⟩ := List.mem_map.mp hk
    have h2 := labelMap_entries toLower labelsOf ids [] (by simp) e' he'
    have : e' = e := by
      apply Prod.ext hfst
      rw [h2, hl, hfst]
    exact this ▸ he'

theorem labelMap_get (toLower : String → String) (labelsOf : Int → List String)
    (ids : List Int) (id : Int) (hid : id ∈ ids) :
    GoMap.get [] (labelMap toLower labelsOf ids []) id = (labelsOf id).map toLower := by
  have hmem : (id, (labelsOf id).map toLower) ∈ labelMap toLower labelsOf ids [] :=
    (labelMap_mem_iff toLower labelsOf ids _).mpr ⟨hid, rfl⟩
  have hnd := labelMap_nodup toLower labelsOf ids [] (by simp [GoMap.keys])
  simp [GoMap.get, GoMap.get?_of_mem _ _ _ hnd hmem]

theorem labelMap_keys_perm (toLower : String → String) (labelsOf : Int → List String)
    (ids : List Int) (id : Int) :
    id ∈ sortInts (GoMap.keys (labelMap toLower labelsOf ids [])) ↔ id ∈ ids := by
  rw [(sortInts_perm _).mem_iff, labelMap_keys]
  simp [GoMap.keys]

/-! ## Lemmas: `PRVersionChange` on a batch whose fetches succeed -/

theorem PRVersionChange_of_fetched {σ ε : Type} (toLower : String → String) (cfg : Config σ ε)
    (fetch : FetchPRLabels σ ε) (labelsOf : Int → List String) (st : σ) (ids : List Int)
    (hfetcher : cfg.PRLabelFetcher = some fetch)
    (hfetch : ∀ s, ∀ id ∈ ids, (fetch s id).1 = (labelsOf id, none)) :
    ∃ st', cfg.PRVersionChange toLower st ids =
      if cfg.RequireLabels = true ∧
          missingIDs toLower cfg (labelMap toLower labelsOf ids []) ≠ [] then
        Run.ret ((0, some (Err.PRMissingLabelErr
          (missingIDs toLower cfg (labelMap toLower labelsOf ids [])))), st')
      else
        match versionChangeLoop toLower cfg (labelMap toLower labelsOf ids [])
            VersionChangeNone with
        | Run.panic msg => Run.panic msg
        | Run.ret versionChange => Run.ret ((versionChange, none), st') := by
  obtain ⟨st', hst'⟩ := prLabelsLoop_of_success toLower fetch labelsOf ids hfetch [] st
  refine ⟨st', ?_⟩
  simp only [Config.PRVersionChange, Config.prLabels, hfetcher, hst', Option.getD_some,
    requireLabels_eq]
  by_cases hc : cfg.RequireLabels = true ∧
      missingIDs toLower cfg (labelMap toLower labelsOf ids []) ≠ []
  · simp only [if_pos hc]
  · simp only [if_neg hc]

theorem PRVersionChange_of_success {σ ε : Type} (toLower : String → String) (cfg : Config σ ε)
    (fetch : FetchPRLabels σ ε) (labelsOf : Int → List String) (st : σ) (ids : List Int)
    (hfetcher : cfg.PRLabelFetcher = some fetch)
    (hvalid : ∀ e ∈ cfg.effectiveTable, VersionChange.valid e.2 = true)
    (hfetch : ∀ s, ∀ id ∈ ids, (fetch s id).1 = (labelsOf id, none)) :
    ∃ st', cfg.PRVersionChange toLower st ids =
      Run.ret
        (if cfg.RequireLabels = true ∧
            missingIDs toLower cfg (labelMap toLower labelsOf ids []) ≠ [] then
          (0, some (Err.PRMissingLabelErr
            (missingIDs toLower cfg (labelMap toLower labelsOf ids []))))
        else
          (maxFrom VersionChangeNone
            ((labelMap toLower labelsOf ids []).map (fun e => cfg.severity toLower e.2)), none),
        st') := by
  obtain ⟨st', hst'⟩ :=
    PRVersionChange_of_fetched toLower cfg fetch labelsOf st ids hfetcher hfetch
  refine ⟨st', ?_⟩
  rw [hst']
  by_cases hc : cfg.RequireLabels = true ∧
      missingIDs toLower cfg (labelMap toLower labelsOf ids []) ≠ []
  · simp only [if_pos hc]
  · simp only [if_neg hc, versionChangeLoop_eq toLower cfg hvalid _ _ valid_none]

theorem containsAnyLabel_eq_false_iff {σ ε : Type} (toLower : String → String)
    (cfg : Config σ ε) (labels : List String) :
    cfg.containsAnyLabel toLower labels = false ↔ ¬ cfg.hasKnownLabel toLower labels := by
  rw [← Bool.not_eq_true, containsAnyLabel_eq_true_iff]
  rfl

theorem missingIDs_sorted {σ ε : Type} (toLower : String → String) (cfg : Config σ ε)
    (m : GoMap Int (List String)) (hm : (GoMap.keys m).Nodup) :
    (missingIDs toLower cfg m).Sorted (· < ·) :=
  (sortInts_strict _ hm).filter _

theorem mem_missingIDs {σ ε : Type} (toLower : String → String) (cfg : Config σ ε)
    (m : GoMap Int (List String)) (id : Int) :
    id ∈ missingIDs toLower cfg m ↔
      id ∈ GoMap.keys m ∧ ¬ cfg.hasKnownLabel toLower (GoMap.get [] m id) := by
  simp only [missingIDs, List.mem_filter, (sortInts_perm _).mem_iff, Bool.not_eq_true',
    containsAnyLabel_eq_false_iff]

theorem missingIDs_labelMap {σ ε : Type} (toLower : String → String)
    (hidem : ∀ s, toLower (toLower s) = toLower s) (cfg : Config σ ε)
    (labelsOf : Int → List String) (ids : List Int) :
    missingIDs toLower cfg (labelMap toLower labelsOf ids []) =
      (sortInts (GoMap.keys (labelMap toLower labelsOf ids []))).filter
        (fun id => !cfg.containsAnyLabel toLower (labelsOf id)) := by
  unfold missingIDs
  apply List.filter_congr
  intro id hid
  rw [labelMap_get toLower labelsOf ids id ((labelMap_keys_perm toLower labelsOf ids id).mp hid),
    containsAnyLabel_map_toLower toLower hidem]

theorem missingIDs_eq_nil_iff {σ ε : Type} (toLower : String → String)
    (hidem : ∀ s, toLower (toLower s) = toLower s) (cfg : Config σ ε)
    (labelsOf : Int → List String) (ids : List Int) :
    missingIDs toLower cfg (labelMap toLower labelsOf ids []) = [] ↔
      ∀ id ∈ ids, cfg.containsAnyLabel toLower (labelsOf id) = true := by
  rw [missingIDs_labelMap toLower hidem, List.filter_eq_nil_iff]
  simp only [labelMap_keys_perm, Bool.not_eq_true', Bool.not_eq_false]

theorem mem_missingIDs_labelMap {σ ε : Type} (toLower : String → String)
    (hidem : ∀ s, toLower (toLower s) = toLower s) (cfg : Config σ ε)
    (labelsOf : Int → List String) (ids : List Int) (id : Int) :
    id ∈ missingIDs toLower cfg (labelMap toLower labelsOf ids []) ↔
      id ∈ ids ∧ ¬ cfg.hasKnownLabel toLower (labelsOf id) := by
  rw [missingIDs_labelMap toLower hidem]
  simp only [List.mem_filter, labelMap_keys_perm, Bool.not_eq_true',
    containsAnyLabel_eq_false_iff]

theorem resolve_le_severity {σ ε : Type} (toLower : String → String) (cfg : Config σ ε)
    (labels : List String) (l : String) (hl : l ∈ labels) :
    cfg.resolve toLower l ≤ cfg.severity toLower labels :=
  mem_le_maxFrom _ _ _ (List.mem_map.mpr ⟨l, hl, rfl⟩)

theorem severity_attained {σ ε : Type} (toLower : String → String) (cfg : Config σ ε)
    (labels : List String) :
    cfg.severity toLower labels = VersionChangeNone ∨
      ∃ l ∈ labels, cfg.resolve toLower l = cfg.severity toLower labels := by
  rcases maxFrom_mem VersionChangeNone (labels.map (cfg.resolve toLower)) with h | h
  · exact Or.inl h
  · obtain ⟨l, hl, hr⟩ := List.mem_map.mp h
    exact Or.inr ⟨l, hl, hr⟩

theorem aggregate_upper {σ ε : Type} (toLower : String → String)
    (hidem : ∀ s, toLower (toLower s) = toLower s) (cfg : Config σ ε)
    (labelsOf : Int → List String) (ids : List Int) :
    ∀ id ∈ ids, ∀ l ∈ labelsOf id, cfg.resolve toLower l ≤
      maxFrom VersionChangeNone
        ((labelMap toLower labelsOf ids []).map (fun e => cfg.severity toLower e.2)) := by
  intro id hid l hl
  have hmem : (id, (labelsOf id).map toLower) ∈ labelMap toLower labelsOf ids [] :=
    (labelMap_mem_iff toLower labelsOf ids _).mpr ⟨hid, rfl⟩
  have h1 : cfg.severity toLower (labelsOf id) ≤ _ :=
    mem_le_maxFrom VersionChangeNone
      ((labelMap toLower labelsOf ids []).map (fun e => cfg.severity toLower e.2))
      (cfg.severity toLower (labelsOf id))
      (List.mem_map.mpr ⟨_, hmem, severity_map_toLower toLower hidem cfg _⟩)
  exact le_trans (resolve_le_severity toLower cfg _ l hl) h1

theorem aggregate_attained {σ ε : Type} (toLower : String → String)
    (hidem : ∀ s, toLower (toLower s) = toLower s) (cfg : Config σ ε)
    (labelsOf : Int → List String) (ids : List Int) :
    maxFrom VersionChangeNone
        ((labelMap toLower labelsOf ids []).map (fun e => cfg.severity toLower e.2)) =
        VersionChangeNone ∨
      ∃ id ∈ ids, ∃ l ∈ labelsOf id, cfg.resolve toLower l =
        maxFrom VersionChangeNone
          ((labelMap toLower labelsOf ids []).map (fun e => cfg.severity toLower e.2)) := by
  rcases maxFrom_mem VersionChangeNone
      ((labelMap toLower labelsOf ids []).map (fun e => cfg.severity toLower e.2)) with h | h
  · exact Or.inl h
  · obtain ⟨e, he, hsev⟩ := List.mem_map.mp h
    obtain ⟨hid, hlab⟩ := (labelMap_mem_iff toLower labelsOf ids e).mp he
    simp only [hlab, severity_map_toLower toLower hidem] at hsev
    rcases severity_attained toLower cfg (labelsOf e.1) with h0 | ⟨l, hl, hr⟩
    · exact Or.inl (by rw [← hsev, h0])
    · exact Or.inr ⟨e.1, hid, l, hl, by rw [hr, hsev]⟩

/-! ## Validation (C2) -/

/-- C2. With `RequireLabels` true, `requireLabels` fails exactly when some pull
request of the label map has no label of the table, and its error is a
`PRMissingLabelErr` whose `IDs` are exactly those pull requests in strictly
ascending order; so is the error of `PRVersionChange` once every fetch has
succeeded, for any order or repetition of the requested identifiers. -/
theorem requireLabels_reports_missing {σ ε : Type} (toLower : String → String)
    (hidem : ∀ s, toLower (toLower s) = toLower s) (cfg : Config σ ε)
    (fetch : FetchPRLabels σ ε) (labelsOf : Int → List String) (st : σ) (ids : List Int)
    (m : GoMap Int (List String))
    (hreq : cfg.RequireLabels = true)
    (hm : (GoMap.keys m).Nodup)
    (hfetcher : cfg.PRLabelFetcher = some fetch)
    (hfetch : ∀ s, ∀ id ∈ ids, (fetch s id).1 = (labelsOf id, none)) :
    ((cfg.requireLabels toLower m = none ↔
        ∀ id ∈ GoMap.keys m, cfg.hasKnownLabel toLower (GoMap.get [] m id)) ∧
      (∀ err, cfg.requireLabels toLower m = some err →
        ∃ IDs, err = Err.PRMissingLabelErr IDs ∧ IDs.Sorted (· < ·) ∧
          ∀ id, id ∈ IDs ↔
            id ∈ GoMap.keys m ∧ ¬ cfg.hasKnownLabel toLower (GoMap.get [] m id))) ∧
    ((∀ id ∈ ids, cfg.hasKnownLabel toLower (labelsOf id)) →
        ∀ vc err st', cfg.PRVersionChange toLower st ids ≠ Run.ret ((vc, some err), st')) ∧
    ((∃ id ∈ ids, ¬ cfg.hasKnownLabel toLower (labelsOf id)) →
        ∃ IDs st', cfg.PRVersionChange toLower st ids =
            Run.ret ((0, some (Err.PRMissingLabelErr IDs)), st') ∧
          IDs.Sorted (· < ·) ∧
          ∀ id, id ∈ IDs ↔ id ∈ ids ∧ ¬ cfg.hasKnownLabel toLower (labelsOf id)) := by
  refine ⟨⟨?_, ?_⟩, ?_, ?_⟩
  · rw [requireLabels_eq]
    simp only [hreq, true_and, ne_eq, ite_eq_right_iff, reduceCtorEq, imp_false, not_not]
    rw [List.eq_nil_iff_forall_not_mem]
    simp only [mem_missingIDs, not_and, not_not]
  · intro err herr
    rw [requireLabels_eq] at herr
    by_cases hc : cfg.RequireLabels = true ∧ missingIDs toLower cfg m ≠ []
    · rw [if_pos hc] at herr
      exact ⟨_, (Option.some.inj herr).symm, missingIDs_sorted toLower cfg m hm,
        mem_missingIDs toLower cfg m⟩
    · rw [if_neg hc] at herr
      exact absurd herr (by simp)
  · intro hall vc err st' hret
    obtain ⟨st₂, hst₂⟩ :=
      PRVersionChange_of_fetched toLower cfg fetch labelsOf st ids hfetcher hfetch
    have hnil : missingIDs toLower cfg (labelMap toLower labelsOf ids []) = [] := by
      rw [List.eq_nil_iff_forall_not_mem]
      intro id hid
      rw [mem_missingIDs_labelMap toLower hidem] at hid
      exact hid.2 (hall id hid.1)
    rw [hst₂, if_neg (by simp [hnil])] at hret
    split at hret <;> simp at hret
  · rintro ⟨id, hid, hno⟩
    obtain ⟨st₂, hst₂⟩ :=
      PRVersionChange_of_fetched toLower cfg fetch labelsOf st ids hfetcher hfetch
    have hne : missingIDs toLower cfg (labelMap toLower labelsOf ids []) ≠ [] := by
      intro hnil
      have : id ∈ missingIDs toLower cfg (labelMap toLower labelsOf ids []) :=
        (mem_missingIDs_labelMap toLower hidem cfg labelsOf ids id).mpr ⟨hid, hno⟩
      rw [hnil] at this
      exact absurd this (List.not_mem_nil _)
    rw [if_pos ⟨hreq, hne⟩] at hst₂
    exact ⟨_, st₂, hst₂,
      missingIDs_sorted toLower cfg _ (labelMap_nodup toLower labelsOf ids [] (by simp [GoMap.keys])),
      mem_missingIDs_labelMap toLower hidem cfg labelsOf ids⟩

/-- Witness of C2: the example batch requested as 3, 1, 4, 2 reports 3 and 4. -/
theorem requireLabels_reports_missing_witness :
    (exampleConfig true).PRVersionChange asciiToLower () [3, 1, 4, 2] =
        Run.ret ((0, some (Err.PRMissingLabelErr [3, 4])), ()) ∧
      (exampleConfig true).requireLabels asciiToLower exampleLabels =
        some (Err.PRMissingLabelErr [3, 4]) ∧
      ∃ IDs st', (exampleConfig true).PRVersionChange asciiToLower () [3, 1, 4, 2] =
          Run.ret ((0, some (Err.PRMissingLabelErr IDs)), st') ∧
        IDs.Sorted (· < ·) ∧
        ∀ id, id ∈ IDs ↔ id ∈ [3, 1, 4, 2] ∧
          ¬ (exampleConfig true).hasKnownLabel asciiToLower (GoMap.get [] exampleLabels id) :=
  ⟨by decide, by decide,
   (requireLabels_reports_missing asciiToLower asciiToLower_idem (exampleConfig true)
      (tableFetcher exampleLabels) (GoMap.get [] exampleLabels) () [3, 1, 4, 2] exampleLabels
      rfl (by decide) rfl (fun _ _ _ => rfl)).2.2
    ⟨3, by decide, (containsAnyLabel_eq_false_iff asciiToLower _ _).mp (by decide)⟩⟩

/-! ## The version bump (C3, C4, C8) -/

theorem NewVersion_original (v : String) (ver : Version)
    (h : Version.NewVersion v = some ver) : ver.original = v := by
  unfold Version.NewVersion at h
  split at h
  · split at h
    · simp only [Option.some.injEq] at h
      rw [← h]
    · exact absurd h (by simp)
  · split at h
    · simp only [Option.some.injEq] at h
      rw [← h]
    · exact absurd h (by simp)
  · split at h
    · simp only [Option.some.injEq] at h
      rw [← h]
    · exact absurd h (by simp)
  · exact absurd h (by simp)

theorem digitChar_spec (k : Nat) (hk : k < 10) :
    (Nat.digitChar k).isDigit = true ∧ (Nat.digitChar k).toNat - 48 = k ∧
      Nat.digitChar k ≠ '.' ∧ Nat.digitChar k ≠ 'v' := by
  interval_cases k <;> decide

theorem numeralValue_append_singleton (xs : List Char) (d : Char) :
    numeralValue (xs ++ [d]) = 10 * numeralValue xs + (d.toNat - 48) := by
  simp [numeralValue, List.foldl_append]

theorem toDigitsCore_spec (fuel n : Nat) (ds : List Char) (h : n < fuel) :
    ∃ xs, Nat.toDigitsCore 10 fuel n ds = xs ++ ds ∧ xs ≠ [] ∧
      (∀ c ∈ xs, c.isDigit = true ∧ c ≠ '.' ∧ c ≠ 'v') ∧ numeralValue xs = n := by
  induction fuel generalizing n ds with
  | zero => exact absurd h (Nat.not_lt_zero _)
  | succ fuel ih =>
    have hd := digitChar_spec (n % 10) (Nat.mod_lt _ (by decide))
    unfold Nat.toDigitsCore
    by_cases h0 : n / 10 = 0
    · refine ⟨[Nat.digitChar (n % 10)], by simp [h0], by simp, ?_, ?_⟩
      · intro c hc
        rw [List.mem_singleton.mp hc]
        exact ⟨hd.1, hd.2.2⟩
      · simp only [numeralValue, List.foldl, hd.2.1]
        omega
    · have hlt : n / 10 < fuel := by omega
      obtain ⟨xs, hxs, _, hall, hval⟩ := ih (n / 10) (Nat.digitChar (n % 10) :: ds) hlt
      refine ⟨xs ++ [Nat.digitChar (n % 10)], by simp [h0, hxs], by simp, ?_, ?_⟩
      · intro c hc
        rcases List.mem_append.mp hc with hc | hc
        · exact hall c hc
        · rw [List.mem_singleton.mp hc]
          exact ⟨hd.1, hd.2.2⟩
      · rw [numeralValue_append_singleton, hval, hd.2.1]
        omega

theorem toString_data_spec (n : Nat) :
    (toString n).data ≠ [] ∧ (∀ c ∈ (toString n).data, c.isDigit = true ∧ c ≠ '.' ∧ c ≠ 'v') ∧
      numeralValue (toString n).data = n := by
  obtain ⟨xs, hxs, hne, hall, hval⟩ := toDigitsCore_spec (n + 1) n [] (Nat.lt_succ_self n)
  have hdata : (toString n).data = xs := by
    rw [List.append_nil] at hxs
    rw [← hxs]
    rfl
  rw [hdata]
  exact ⟨hne, hall, hval⟩

theorem parseNumeral_toString (n : Nat) : parseNumeral (toString n).data = some n := by
  obtain ⟨hne, hall, hval⟩ := toString_data_spec n
  unfold parseNumeral
  split
  · rename_i heq
    exact absurd heq hne
  · have : ((toString n).data.all Char.isDigit) = true := by
      rw [List.all_eq_true]
      exact fun c hc => (hall c hc).1
    rw [if_pos this]
    exact congrArg some hval

theorem splitOnDot_no_dot (xs : List Char) (h : ∀ c ∈ xs, c ≠ '.') : splitOnDot xs = [xs] := by
  induction xs with
  | nil => rfl
  | cons c cs ih =>
    have hc : c ≠ '.' := h c (List.mem_cons_self _ _)
    simp only [splitOnDot, hc, if_false, ih (fun x hx => h x (List.mem_cons_of_mem _ hx))]

theorem splitOnDot_append_dot (xs rest : List Char) (h : ∀ c ∈ xs, c ≠ '.') :
    splitOnDot (xs ++ '.' :: rest) = xs :: splitOnDot rest := by
  induction xs with
  | nil => simp [splitOnDot]
  | cons c cs ih =>
    have hc : c ≠ '.' := h c (List.mem_cons_self _ _)
    have e := ih (fun x hx => h x (List.mem_cons_of_mem _ hx))
    simp only [List.cons_append, splitOnDot, hc, if_false, List.append_eq, e]

theorem stripV_of_ne (c : Char) (cs : List Char) (h : c ≠ 'v') : stripV (c :: cs) = c :: cs := by
  unfold stripV
  split
  · rename_i heq
    simp only [List.cons.injEq] at heq
    exact absurd heq.1 h
  · rfl

theorem originalVPrefix_cases (v : String) : originalVPrefix v = "" ∨ originalVPrefix v = "v" := by
  unfold originalVPrefix
  split
  · exact Or.inr rfl
  · exact Or.inl rfl

theorem NewVersion_versionText (v : String) (M m p : Nat) :
    Version.NewVersion (versionText v M m p) =
      some { major := M, minor := m, patch := p, original := versionText v M m p } := by
  obtain ⟨hneM, hallM, _⟩ := toString_data_spec M
  obtain ⟨_, hallm, _⟩ := toString_data_spec m
  obtain ⟨_, hallp, _⟩ := toString_data_spec p
  have hbody : stripV (versionText v M m p).data =
      (toString M).data ++ '.' :: ((toString m).data ++ '.' :: (toString p).data) := by
    rcases originalVPrefix_cases v with h | h
    · simp only [versionText, h, String.data_append]
      obtain ⟨c, cs, hcs⟩ := List.exists_cons_of_ne_nil hneM
      have hc : c ≠ 'v' := (hallM c (by rw [hcs]; exact List.mem_cons_self _ _)).2.2
      rw [hcs]
      simp [stripV_of_ne c _ hc]
    · simp only [versionText, h, String.data_append]
      simp [stripV]
  unfold Version.NewVersion
  rw [hbody, splitOnDot_append_dot _ _ (fun c hc => (hallM c hc).2.1),
    splitOnDot_append_dot _ _ (fun c hc => (hallm c hc).2.1),
    splitOnDot_no_dot _ (fun c hc => (hallp c hc).2.1)]
  simp only [parseNumeral_toString]

/-- C3. For a previous version that parses with components M, m, p,
`nextVersion` returns without error the text of M.m.(p+1) for Patch, of
M.(m+1).0 for Minor and of (M+1).0.0 for Major, in three-component form behind
the "v" prefix of the input when it has one; such a text parses back to the
components it was written from. -/
theorem nextVersion_increments (ε : Type) (v : String) (ver : Version)
    (h : specSemver.NewVersion v = some ver) :
    (nextVersion specSemver v VersionChangePatch : Run (String × Option (Err ε))) =
        Run.ret (versionText v ver.major ver.minor (ver.patch + 1), none) ∧
      (nextVersion specSemver v VersionChangeMinor : Run (String × Option (Err ε))) =
        Run.ret (versionText v ver.major (ver.minor + 1) 0, none) ∧
      (nextVersion specSemver v VersionChangeMajor : Run (String × Option (Err ε))) =
        Run.ret (versionText v (ver.major + 1) 0 0, none) ∧
      (∀ M m p, specSemver.NewVersion (versionText v M m p) =
        some { major := M, minor := m, patch := p, original := versionText v M m p }) := by
  have ho : ver.original = v := NewVersion_original v ver h
  refine ⟨?_, ?_, ?_, NewVersion_versionText v⟩
  · simp only [nextVersion, mustBeValid_of_valid (by decide : VersionChange.valid
      VersionChangePatch = true), h]
    simp [specSemver, VersionChangePatch, VersionChangeNone, Version.Original, Version.IncPatch,
      Version.format, versionText, ho]
  · simp only [nextVersion, mustBeValid_of_valid (by decide : VersionChange.valid
      VersionChangeMinor = true), h]
    simp [specSemver, VersionChangePatch, VersionChangeMinor, VersionChangeNone,
      Version.Original, Version.IncMinor, Version.format, versionText, ho]
  · simp only [nextVersion, mustBeValid_of_valid (by decide : VersionChange.valid
      VersionChangeMajor = true), h]
    simp [specSemver, VersionChangePatch, VersionChangeMinor, VersionChangeMajor,
      VersionChangeNone, Version.Original, Version.IncMajor, Version.format, versionText, ho]

/-- Witness of C3: the increments of "v1.2.3", "v1" and "v0". -/
theorem nextVersion_increments_witness :
    (nextVersion specSemver "v1.2.3" VersionChangePatch : Run (String × Option (Err Unit))) =
        Run.ret ("v1.2.4", none) ∧
      (nextVersion specSemver "v1.2.3" VersionChangeMinor : Run (String × Option (Err Unit))) =
        Run.ret ("v1.3.0", none) ∧
      (nextVersion specSemver "v1.2.3" VersionChangeMajor : Run (String × Option (Err Unit))) =
        Run.ret ("v2.0.0", none) ∧
      (nextVersion specSemver "v1" VersionChangeMinor : Run (String × Option (Err Unit))) =
        Run.ret ("v1.1.0", none) ∧
      (nextVersion specSemver "v0" VersionChangeMinor : Run (String × Option (Err Unit))) =
        Run.ret ("v0.1.0", none) ∧
      (nextVersion specSemver "1.2" VersionChangePatch : Run (String × Option (Err Unit))) =
        Run.ret ("1.2.1", none) :=
  ⟨(nextVersion_increments Unit "v1.2.3"
      { major := 1, minor := 2, patch := 3, original := "v1.2.3" } (by decide)).1,
   (nextVersion_increments Unit "v1.2.3"
      { major := 1, minor := 2, patch := 3, original := "v1.2.3" } (by decide)).2.1,
   (nextVersion_increments Unit "v1.2.3"
      { major := 1, minor := 2, patch := 3, original := "v1.2.3" } (by decide)).2.2.1,
   (nextVersion_increments Unit "v1"
      { major := 1, minor := 0, patch := 0, original := "v1" } (by decide)).2.1,
   (nextVersion_increments Unit "v0"
      { major := 0, minor := 0, patch := 0, original := "v0" } (by decide)).2.1,
   (nextVersion_increments Unit "1.2"
      { major := 1, minor := 2, patch := 0, original := "1.2" } (by decide)).1⟩

/-- C4. For a previous version that parses, `nextVersion` with None returns the
previous version text itself, with no error. -/
theorem nextVersion_none_identity (ε : Type) (v : String) (ver : Version)
    (h : specSemver.NewVersion v = some ver) :
    (nextVersion specSemver v VersionChangeNone : Run (String × Option (Err ε))) =
      Run.ret (v, none) := by
  have ho : ver.original = v := NewVersion_original v ver h
  simp only [nextVersion, mustBeValid_of_valid valid_none, h]
  simp [specSemver, Version.Original, ho]

/-- Witness of C4: "v1.2.3" and the shortened "v1" come back unchanged. -/
theorem nextVersion_none_identity_witness :
    (nextVersion specSemver "v1.2.3" VersionChangeNone : Run (String × Option (Err Unit))) =
        Run.ret ("v1.2.3", none) ∧
      (nextVersion specSemver "v1" VersionChangeNone : Run (String × Option (Err Unit))) =
        Run.ret ("v1", none) :=
  ⟨nextVersion_none_identity Unit "v1.2.3"
      { major := 1, minor := 2, patch := 3, original := "v1.2.3" } (by decide),
   nextVersion_none_identity Unit "v1"
      { major := 1, minor := 0, patch := 0, original := "v1" } (by decide)⟩

/-- C8. For a valid severity and a previous version that the parser rejects,
whatever the semantic-version package, `nextVersion` returns the empty string
and an error built from the format "could not parse semver from %q" and the
input, whose message is that text with the quoted input in place of the verb. -/
theorem nextVersion_parse_error {V : Type} (ε : Type) (semver : Semver V)
    (quote : String → String) (v : String) (bump : VersionChange)
    (hbump : VersionChange.valid bump = true) (h : semver.NewVersion v = none) :
    (nextVersion semver v bump : Run (String × Option (Err ε))) =
        Run.ret ("", some (Err.errorf "could not parse semver from %q" v)) ∧
      (Err.errorf "could not parse semver from %q" v : Err ε).Error quote =
        "could not parse semver from " ++ quote v := by
  refine ⟨?_, ?_⟩
  · simp only [nextVersion, mustBeValid_of_valid hbump, h]
  · simp [Err.Error, sprintfQ]
    rfl

/-- Witness of C8: "limabeans" is rejected, here with the severity Major. -/
theorem nextVersion_parse_error_witness :
    (nextVersion specSemver "limabeans" VersionChangeMajor : Run (String × Option (Err Unit))) =
        Run.ret ("", some (Err.errorf "could not parse semver from %q" "limabeans")) ∧
      (Err.errorf "could not parse semver from %q" "limabeans" : Err Unit).Error plainQuote =
        "could not parse semver from " ++ plainQuote "limabeans" :=
  nextVersion_parse_error Unit specSemver plainQuote "limabeans" VersionChangeMajor
    (by decide) (by decide)

/-! ## Case-insensitive lookup (C5) -/

theorem maxVersionChangeLoop_eq_greaterLoop (toLower : String → String)
    (labelValues : GoMap String VersionChange) (labels : List String) (change : VersionChange) :
    maxVersionChangeLoop toLower labelValues labels change =
      greaterLoop ((labels.map toLower).map (GoMap.get 0 labelValues)) change := by
  induction labels generalizing change with
  | nil => rfl
  | cons l rest ih =>
    simp only [maxVersionChangeLoop, List.map_cons, greaterLoop]
    cases VersionChange.greater (GoMap.get 0 labelValues (toLower l)) change with
    | panic msg => rfl
    | ret c => exact ih c

theorem labelValues_get?_iff {σ ε : Type} (toLower : String → String) (cfg : Config σ ε)
    (hnd : (GoMap.keys (cfg.loweredTable toLower)).Nodup) (k : String) (v : VersionChange) :
    GoMap.get? (cfg.labelValues toLower) k = some v ↔ (k, v) ∈ cfg.loweredTable toLower := by
  have hto : ∀ w, GoMap.get? (cfg.labelValues toLower) k = some w →
      (k, w) ∈ cfg.loweredTable toLower := by
    intro w hw
    rcases labelValuesLoop_get?_some toLower _ _ _ _ hw with h1 | ⟨e, he, hk, hv⟩
    · simp [GoMap.get?] at h1
    · exact List.mem_map.mpr ⟨e, he, by rw [hk, hv]⟩
  refine ⟨hto v, ?_⟩
  intro hmem
  cases hget : GoMap.get? (cfg.labelValues toLower) k with
  | none =>
    obtain ⟨e, he, heq⟩ := List.mem_map.mp hmem
    simp only [Prod.mk.injEq] at heq
    exact absurd heq.1 ((labelValues_get?_none toLower cfg k).mp hget e he)
  | some w =>
    have h1 := GoMap.get?_of_mem _ _ _ hnd (hto w hget)
    have h2 := GoMap.get?_of_mem _ _ _ hnd hmem
    rw [h1] at h2
    exact h2

theorem labelValues_get?_congr {σ ε : Type} (toLower : String → String) (cfg₁ cfg₂ : Config σ ε)
    (hnd : (GoMap.keys (cfg₁.loweredTable toLower)).Nodup)
    (htable : (cfg₁.loweredTable toLower).Perm (cfg₂.loweredTable toLower)) (k : String) :
    GoMap.get? (cfg₁.labelValues toLower) k = GoMap.get? (cfg₂.labelValues toLower) k := by
  have hnd₂ : (GoMap.keys (cfg₂.loweredTable toLower)).Nodup :=
    (htable.map Prod.fst).nodup_iff.mp hnd
  apply Option.ext
  intro v
  rw [Option.mem_def, Option.mem_def, labelValues_get?_iff toLower cfg₁ hnd,
    labelValues_get?_iff toLower cfg₂ hnd₂]
  exact htable.mem_iff

/-- C5. Label matching is case-insensitive: two tables that agree after
lower-casing their keys, the lower-cased keys being distinct, and two label
lists that agree pointwise after lower-casing give the same result of
`maxVersionChange` and of `containsAnyLabel`. -/
theorem label_matching_case_insensitive {σ ε : Type} (toLower : String → String)
    (cfg₁ cfg₂ : Config σ ε) (labels₁ labels₂ : List String)
    (hnd : (cfg₁.effectiveTable.map (fun e => toLower e.1)).Nodup)
    (htable : (cfg₁.effectiveTable.map (fun e => (toLower e.1, e.2))).Perm
      (cfg₂.effectiveTable.map (fun e => (toLower e.1, e.2))))
    (hlabels : labels₁.map toLower = labels₂.map toLower) :
    cfg₁.maxVersionChange toLower labels₁ = cfg₂.maxVersionChange toLower labels₂ ∧
      cfg₁.containsAnyLabel toLower labels₁ = cfg₂.containsAnyLabel toLower labels₂ := by
  have hnd' : (GoMap.keys (cfg₁.loweredTable toLower)).Nodup := by
    simpa [GoMap.keys, Config.loweredTable, List.map_map, Function.comp_def] using hnd
  have hget := labelValues_get?_congr toLower cfg₁ cfg₂ hnd' htable
  have hfun : GoMap.get 0 (cfg₁.labelValues toLower) = GoMap.get 0 (cfg₂.labelValues toLower) := by
    funext k
    simp only [GoMap.get, hget k]
  refine ⟨?_, ?_⟩
  · simp only [Config.maxVersionChange, maxVersionChangeLoop_eq_greaterLoop, hlabels, hfun]
  · rw [Bool.eq_iff_iff]
    simp only [Config.containsAnyLabel, containsAnyLabelLoop_iff]
    have h₁ : ∀ (cfg : Config σ ε) (labels : List String),
        (∃ l ∈ labels, (GoMap.get? (cfg.labelValues toLower) (toLower l)).isSome = true) ↔
          ∃ k ∈ labels.map toLower, (GoMap.get? (cfg.labelValues toLower) k).isSome = true := by
      intro cfg labels
      simp
    rw [h₁, h₁, hlabels]
    simp only [hget]

/-- Witness of C5: the three spellings of "breaking change" resolve to Major
under the default table and under its upper-case spelling. -/
theorem label_matching_case_insensitive_witness :
    ((exampleConfig false).maxVersionChange asciiToLower ["Breaking Change"] =
        upperCaseConfig.maxVersionChange asciiToLower ["BREAKING CHANGE"] ∧
      (exampleConfig false).containsAnyLabel asciiToLower ["Breaking Change"] =
        upperCaseConfig.containsAnyLabel asciiToLower ["BREAKING CHANGE"]) ∧
    (exampleConfig false).resolve asciiToLower "Breaking Change" = VersionChangeMajor ∧
    (exampleConfig false).resolve asciiToLower "breaking change" = VersionChangeMajor ∧
    (exampleConfig false).resolve asciiToLower "BREAKING CHANGE" = VersionChangeMajor ∧
    (exampleConfig false).maxVersionChange asciiToLower ["BREAKING CHANGE"] =
      Run.ret VersionChangeMajor :=
  ⟨label_matching_case_insensitive asciiToLower (exampleConfig false) upperCaseConfig
      ["Breaking Change"] ["BREAKING CHANGE"] (by decide) (by decide) (by decide),
   by decide, by decide, by decide, by decide⟩

/-! ## Lemmas: order of the batch -/

theorem GoMap.get?_perm {κ ν : Type} [DecidableEq κ] (m m' : GoMap κ ν) (h : m.Perm m')
    (hnd : (GoMap.keys m).Nodup) (k : κ) : GoMap.get? m k = GoMap.get? m' k := by
  have hnd' : (GoMap.keys m').Nodup := (h.map Prod.fst).nodup_iff.mp hnd
  apply Option.ext
  intro v
  rw [Option.mem_def, Option.mem_def]
  constructor
  · intro hv
    exact GoMap.get?_of_mem _ _ _ hnd' (h.mem_iff.mp (GoMap.mem_of_get? _ _ _ hv))
  · intro hv
    exact GoMap.get?_of_mem _ _ _ hnd (h.mem_iff.mpr (GoMap.mem_of_get? _ _ _ hv))

theorem missingIDs_perm {σ ε : Type} (toLower : String → String) (cfg : Config σ ε)
    (m m' : GoMap Int (List String)) (h : m.Perm m') (hnd : (GoMap.keys m).Nodup) :
    missingIDs toLower cfg m = missingIDs toLower cfg m' := by
  unfold missingIDs
  have hk : sortInts (GoMap.keys m) = sortInts (GoMap.keys m') :=
    sortInts_eq_of_perm (h.map Prod.fst)
  rw [hk]
  apply List.filter_congr
  intro id _
  simp only [GoMap.get, GoMap.get?_perm m m' h hnd]

theorem requireLabels_perm {σ ε : Type} (toLower : String → String) (cfg : Config σ ε)
    (m m' : GoMap Int (List String)) (h : m.Perm m') (hnd : (GoMap.keys m).Nodup) :
    cfg.requireLabels toLower m = cfg.requireLabels toLower m' := by
  rw [requireLabels_eq, requireLabels_eq, missingIDs_perm toLower cfg m m' h hnd]

theorem versionChangeLoop_perm {σ ε : Type} (toLower : String → String) (cfg : Config σ ε)
    (hvalid : ∀ e ∈ cfg.effectiveTable, VersionChange.valid e.2 = true)
    (m m' : GoMap Int (List String)) (h : m.Perm m') :
    versionChangeLoop toLower cfg m VersionChangeNone =
      versionChangeLoop toLower cfg m' VersionChangeNone := by
  rw [versionChangeLoop_eq toLower cfg hvalid _ _ valid_none,
    versionChangeLoop_eq toLower cfg hvalid _ _ valid_none,
    maxFrom_perm _ (h.map (fun e => cfg.severity toLower e.2))]

theorem labelMap_perm (toLower : String → String) (labelsOf : Int → List String)
    (ids ids' : List Int) (h : ids.Perm ids') :
    (labelMap toLower labelsOf ids []).Perm (labelMap toLower labelsOf ids' []) := by
  have hd : ∀ l : List Int, (labelMap toLower labelsOf l []).Nodup := fun l =>
    List.Nodup.of_map Prod.fst (labelMap_nodup toLower labelsOf l [] (by simp [GoMap.keys]))
  rw [List.perm_ext_iff_of_nodup (hd ids) (hd ids')]
  intro e
  rw [labelMap_mem_iff, labelMap_mem_iff, h.mem_iff]

/-! ## A failing fetch, disabled validation, label presence (C7, C9, C10) -/

theorem prLabelsLoop_fetch_error {σ ε : Type} (toLower : String → String)
    (fetch : FetchPRLabels σ ε) (pre : List Int) (id : Int) (post : List Int) (err : ε)
    (acc : GoMap Int (List String)) (st : σ)
    (hpre : ∀ a x b, pre = a ++ x :: b → ((fetch (fetcherState fetch st a) x).1).2 = none)
    (hfail : ((fetch (fetcherState fetch st pre) id).1).2 = some err) :
    prLabelsLoop toLower fetch (pre ++ id :: post) acc st =
      ((none, some (Err.PRLabelFetcherErr err)), fetcherState fetch st (pre ++ [id])) := by
  induction pre generalizing acc st with
  | nil =>
    have hf : fetch st id = (((fetch st id).1.1, some err), (fetch st id).2) :=
      Prod.ext (Prod.ext rfl hfail) rfl
    exact prLabelsLoop_cons_err toLower fetch id post acc st _ _ err hf
  | cons x pre' ih =>
    have hx : ((fetch st x).1).2 = none := hpre [] x pre' rfl
    have hf : fetch st x = (((fetch st x).1.1, none), (fetch st x).2) :=
      Prod.ext (Prod.ext rfl hx) rfl
    rw [List.cons_append, prLabelsLoop_cons_ok toLower fetch x _ acc st _ _ hf]
    exact ih _ (fetch st x).2
      (fun a y b hab => hpre (x :: a) y b (by rw [hab]; rfl)) hfail

theorem prLabelsLoop_error_kind {σ ε : Type} (toLower : String → String)
    (fetch : FetchPRLabels σ ε) (ids : List Int) (acc : GoMap Int (List String)) (st : σ)
    (r : Option (GoMap Int (List String))) (e : Err ε) (st' : σ)
    (h : prLabelsLoop toLower fetch ids acc st = ((r, some e), st')) :
    ∃ err, e = Err.PRLabelFetcherErr err := by
  induction ids generalizing acc st with
  | nil => simp [prLabelsLoop] at h
  | cons id rest ih =>
    rcases hf : fetch st id with ⟨⟨labels, _ | err⟩, s'⟩
    · rw [prLabelsLoop_cons_ok toLower fetch id rest acc st s' labels hf] at h
      exact ih _ _ h
    · rw [prLabelsLoop_cons_err toLower fetch id rest acc st s' labels err hf] at h
      simp only [Prod.mk.injEq, Option.some.injEq] at h
      exact ⟨err, h.1.2.symm⟩

/-- C7. When the fetches of the identifiers before `id` succeed and the fetch
of `id` fails with `err`, `prLabels` returns a `nil` map and a
`PRLabelFetcherErr` that unwraps to `err`, the fetcher has been called on the
identifiers up to `id` only, and `PRVersionChange` returns that error with the
zero severity, whatever `RequireLabels` is. -/
theorem prLabels_fetch_error {σ ε : Type} (toLower : String → String) (cfg : Config σ ε)
    (fetch : FetchPRLabels σ ε) (st : σ) (pre : List Int) (id : Int) (post : List Int)
    (err : ε) (hfetcher : cfg.PRLabelFetcher = some fetch)
    (hpre : ∀ a x b, pre = a ++ x :: b → ((fetch (fetcherState fetch st a) x).1).2 = none)
    (hfail : ((fetch (fetcherState fetch st pre) id).1).2 = some err) :
    cfg.prLabels toLower st (pre ++ id :: post) =
        Run.ret ((none, some (Err.PRLabelFetcherErr err)),
          fetcherState fetch st (pre ++ [id])) ∧
      (Err.PRLabelFetcherErr err : Err ε).Unwrap = some err ∧
      cfg.PRVersionChange toLower st (pre ++ id :: post) =
        Run.ret ((0, some (Err.PRLabelFetcherErr err)),
          fetcherState fetch st (pre ++ [id])) := by
  have h := prLabelsLoop_fetch_error toLower fetch pre id post err [] st hpre hfail
  refine ⟨?_, rfl, ?_⟩
  · simp only [Config.prLabels, hfetcher, h]
  · simp only [Config.PRVersionChange, Config.prLabels, hfetcher, h]

/-- Witness of C7: of the identifiers 1, 2, 3 the second fails; the fetcher
has seen 1 and 2 only. -/
theorem prLabels_fetch_error_witness :
    (loggingConfig 2 false).prLabels asciiToLower [] [1, 2, 3] =
        Run.ret ((none, some (Err.PRLabelFetcherErr "fetch failed")), [1, 2]) ∧
      (Err.PRLabelFetcherErr "fetch failed" : Err String).Unwrap = some "fetch failed" ∧
      (loggingConfig 2 false).PRVersionChange asciiToLower [] [1, 2, 3] =
        Run.ret ((0, some (Err.PRLabelFetcherErr "fetch failed")), [1, 2]) :=
  prLabels_fetch_error asciiToLower (loggingConfig 2 false) (loggingFetcher 2) [] [1] 2 [3]
    "fetch failed" rfl
    (fun a x b h => by
      have hx : x = 1 := by
        rcases a with _ | ⟨y, a'⟩
        · simp only [List.nil_append, List.cons.injEq] at h
          exact h.1.symm
        · simp at h
      rw [hx]
      rfl)
    rfl

/-- C9. With `RequireLabels` false, `requireLabels` succeeds on every label
map and `PRVersionChange` never returns a `PRMissingLabelErr`; a label list
without a label of the table has severity None and leaves the aggregate
unchanged. -/
theorem requireLabels_disabled {σ ε : Type} (toLower : String → String) (cfg : Config σ ε)
    (hreq : cfg.RequireLabels = false) :
    (∀ m, cfg.requireLabels toLower m = none) ∧
      (∀ st ids vc IDs st', cfg.PRVersionChange toLower st ids ≠
        Run.ret ((vc, some (Err.PRMissingLabelErr IDs)), st')) ∧
      (∀ labels, ¬ cfg.hasKnownLabel toLower labels →
        cfg.maxVersionChange toLower labels = Run.ret VersionChangeNone) ∧
      (∀ id labels rest vc, VersionChange.valid vc = true →
        ¬ cfg.hasKnownLabel toLower labels →
        versionChangeLoop toLower cfg ((id, labels) :: rest) vc =
          versionChangeLoop toLower cfg rest vc) := by
  have hreqNone : ∀ m, cfg.requireLabels toLower m = none := by
    intro m
    simp [Config.requireLabels, hreq]
  have hnone : ∀ labels, ¬ cfg.hasKnownLabel toLower labels →
      cfg.maxVersionChange toLower labels = Run.ret VersionChangeNone := by
    intro labels hno
    have hzero : ∀ l ∈ labels, GoMap.get 0 (cfg.labelValues toLower) (toLower l) = 0 := by
      intro l hl
      have : GoMap.get? (cfg.labelValues toLower) (toLower l) = none := by
        rw [labelValues_get?_none]
        intro e he heq
        exact hno ⟨l, hl, e.1, List.mem_map.mpr ⟨e, he, rfl⟩, heq⟩
      simp [GoMap.get, this]
    unfold Config.maxVersionChange
    generalize cfg.labelValues toLower = lv at hzero
    induction labels with
    | nil => rfl
    | cons l rest ih =>
      simp only [maxVersionChangeLoop, hzero l (List.mem_cons_self _ _)]
      have hg : VersionChange.greater 0 VersionChangeNone = Run.ret VersionChangeNone := by
        decide
      rw [hg]
      exact ih (fun h => hno (by
        obtain ⟨l', hl', rest'⟩ := h
        exact ⟨l', List.mem_cons_of_mem _ hl', rest'⟩))
        (fun x hx => hzero x (List.mem_cons_of_mem _ hx))
  refine ⟨hreqNone, ?_, hnone, ?_⟩
  · intro st ids vc IDs st' h
    unfold Config.PRVersionChange Config.prLabels at h
    cases hf : cfg.PRLabelFetcher with
    | none => simp [hf] at h
    | some fetch =>
      simp only [hf] at h
      rcases hl : prLabelsLoop toLower fetch ids [] st with ⟨⟨r, _ | e⟩, s'⟩
      · simp only [hl, hreqNone] at h
        split at h <;> simp at h
      · obtain ⟨err, herr⟩ := prLabelsLoop_error_kind toLower fetch ids [] st r e s' hl
        simp [hl, herr] at h
  · intro id labels rest vc hv hno
    have hmax : max VersionChangeNone vc = vc := max_eq_right ((valid_iff vc).mp hv).1
    simp only [versionChangeLoop, hnone labels hno, greater_of_valid valid_none hv, hmax]

/-- Witness of C9: pull requests 1, 2, 3 of the example batch give Minor with
no error although 3 has no label. -/
theorem requireLabels_disabled_witness :
    (exampleConfig false).PRVersionChange asciiToLower () [1, 2, 3] =
        Run.ret ((VersionChangeMinor, none), ()) ∧
      (exampleConfig false).requireLabels asciiToLower exampleLabels = none ∧
      (exampleConfig false).maxVersionChange asciiToLower ["a"] = Run.ret VersionChangeNone :=
  ⟨by decide, (requireLabels_disabled asciiToLower (exampleConfig false) rfl).1 exampleLabels,
   (requireLabels_disabled asciiToLower (exampleConfig false) rfl).2.2.1 ["a"]
    ((containsAnyLabel_eq_false_iff asciiToLower _ _).mp (by decide))⟩

/-- C10. `containsAnyLabel` is true exactly when some label equals, after
lower-casing, the lower-casing of a key of the effective table; it depends on
the keys of the table only, not on their severities, and is false for the empty
list. -/
theorem containsAnyLabel_iff {σ ε : Type} (toLower : String → String) (cfg : Config σ ε)
    (labels : List String) :
    (cfg.containsAnyLabel toLower labels = true ↔
        ∃ l ∈ labels, ∃ key ∈ GoMap.keys cfg.effectiveTable, toLower l = toLower key) ∧
      (∀ cfg' : Config σ ε, GoMap.keys cfg'.effectiveTable = GoMap.keys cfg.effectiveTable →
        cfg'.containsAnyLabel toLower labels = cfg.containsAnyLabel toLower labels) ∧
      cfg.containsAnyLabel toLower [] = false := by
  refine ⟨?_, ?_, rfl⟩
  · rw [containsAnyLabel_eq_true_iff]
    simp only [eq_comm]
  · intro cfg' hkeys
    rw [Bool.eq_iff_iff, containsAnyLabel_eq_true_iff, containsAnyLabel_eq_true_iff, hkeys]

/-- Witness of C10: the table with the key "b" mapped to None recognizes
A, B, C and does not recognize A, C. -/
theorem containsAnyLabel_iff_witness :
    bConfig.containsAnyLabel asciiToLower ["A", "B", "C"] = true ∧
      bConfig.containsAnyLabel asciiToLower ["A", "C"] = false ∧
      bConfig.containsAnyLabel asciiToLower [] = false :=
  ⟨(containsAnyLabel_iff asciiToLower bConfig ["A", "B", "C"]).1.mpr
      ⟨"B", by decide, "b", by decide, by decide⟩,
   by decide,
   (containsAnyLabel_iff asciiToLower bConfig ["A", "B", "C"]).2.2⟩

/-! ## Severities (C13, C14, C18, C19) -/

theorem greater_of_not_valid_left {a : VersionChange} (b : VersionChange)
    (ha : VersionChange.valid a = false) :
    VersionChange.greater a b =
      Run.panic (toString a ++ " is not a valid VersionChange") := by
  unfold VersionChange.greater
  rw [mustBeValid_of_not_valid ha]

theorem greater_of_not_valid_right {a b : VersionChange} (ha : VersionChange.valid a = true)
    (hb : VersionChange.valid b = false) :
    VersionChange.greater a b =
      Run.panic (toString b ++ " is not a valid VersionChange") := by
  unfold VersionChange.greater
  rw [mustBeValid_of_valid ha, mustBeValid_of_not_valid hb]

theorem valid_iff_int (vc : Int) :
    VersionChange.valid vc = true ↔ (0 : Int) ≤ vc ∧ vc < (4 : Int) := by
  simp [VersionChange.valid, versionChangeInvalid]

theorem valid_cases (vc : Int) :
    VersionChange.valid vc = true ↔ vc = 0 ∨ vc = 1 ∨ vc = 2 ∨ vc = 3 := by
  rw [valid_iff_int]
  constructor <;> intro h <;> omega

theorem not_valid_iff (vc : Int) : VersionChange.valid vc = false ↔ vc < 0 ∨ 4 ≤ vc := by
  rw [← Bool.not_eq_true, valid_iff_int]
  constructor <;> intro h <;> omega

/-- C13. For all integers `a` and `b`, `a.greater(b)` panics exactly when `a`
or `b` is invalid, and otherwise returns one of the two operands that is not
less than either; it returns only when both operands are valid, so an invalid
operand is never replaced by a valid result. -/
theorem greater_spec (a b : VersionChange) :
    ((∃ msg, VersionChange.greater a b = Run.panic msg) ↔
        (VersionChange.valid a = false ∨ VersionChange.valid b = false)) ∧
      (VersionChange.valid a = true → VersionChange.valid b = true →
        ∃ r, VersionChange.greater a b = Run.ret r ∧ (r = a ∨ r = b) ∧ a ≤ r ∧ b ≤ r) ∧
      (∀ r, VersionChange.greater a b = Run.ret r →
        VersionChange.valid a = true ∧ VersionChange.valid b = true ∧
          VersionChange.valid r = true) := by
  cases ha : VersionChange.valid a with
  | false =>
    rw [greater_of_not_valid_left b ha]
    simp
  | true =>
    cases hb : VersionChange.valid b with
    | false =>
      rw [greater_of_not_valid_right ha hb]
      simp
    | true =>
      rw [greater_of_valid ha hb]
      refine ⟨by simp, fun _ _ => ⟨max a b, rfl, ?_, le_max_left a b, le_max_right a b⟩, ?_⟩
      · rcases max_choice a b with h | h
        · exact Or.inl h
        · exact Or.inr h
      · intro r hr
        simp only [Run.ret.injEq] at hr
        rw [← hr]
        exact ⟨rfl, rfl, valid_max ha hb⟩

/-- Witness of C13: Major with the sentinel panics, Major with Minor gives
Major, and a negative operand panics. -/
theorem greater_spec_witness :
    (∃ msg, VersionChange.greater VersionChangeMajor versionChangeInvalid = Run.panic msg) ∧
      (∃ r, VersionChange.greater VersionChangeMajor VersionChangeMinor = Run.ret r ∧
        (r = VersionChangeMajor ∨ r = VersionChangeMinor) ∧
        VersionChangeMajor ≤ r ∧ VersionChangeMinor ≤ r) ∧
      VersionChange.greater versionChangeInvalid VersionChangeMajor =
        Run.panic "4 is not a valid VersionChange" ∧
      VersionChange.greater (-1) VersionChangeMajor =
        Run.panic "-1 is not a valid VersionChange" :=
  ⟨(greater_spec VersionChangeMajor versionChangeInvalid).1.mpr (Or.inr (by decide)),
   (greater_spec VersionChangeMajor VersionChangeMinor).2.1 (by decide) (by decide),
   by decide, by decide⟩

/-- C14. On valid severities `greater` is commutative and idempotent. -/
theorem greater_comm_idem (a b : VersionChange) (ha : VersionChange.valid a = true)
    (hb : VersionChange.valid b = true) :
    VersionChange.greater a b = VersionChange.greater b a ∧
      VersionChange.greater a a = Run.ret a := by
  rw [greater_of_valid ha hb, greater_of_valid hb ha, greater_of_valid ha ha, max_comm,
    max_self]
  exact ⟨rfl, rfl⟩

/-- Witness of C14: Major and Minor in both orders, and Major with itself. -/
theorem greater_comm_idem_witness :
    (VersionChange.greater VersionChangeMajor VersionChangeMinor =
        VersionChange.greater VersionChangeMinor VersionChangeMajor ∧
      VersionChange.greater VersionChangeMajor VersionChangeMajor =
        Run.ret VersionChangeMajor) ∧
    VersionChange.greater VersionChangeMinor VersionChangeMajor =
      Run.ret VersionChangeMajor :=
  ⟨greater_comm_idem VersionChangeMajor VersionChangeMinor (by decide) (by decide), by decide⟩

/-- C18. For every integer `s`, `s.valid()` is true exactly when `0 <= s < 4`,
that is when `s` is None, Patch, Minor or Major; it is false for negative
values, for the sentinel and for values past the sentinel. -/
theorem valid_spec (s : VersionChange) :
    (VersionChange.valid s = true ↔ 0 ≤ s ∧ s < 4) ∧
      (VersionChange.valid s = true ↔
        s = VersionChangeNone ∨ s = VersionChangePatch ∨ s = VersionChangeMinor ∨
          s = VersionChangeMajor) ∧
      (s < 0 → VersionChange.valid s = false) ∧
      (versionChangeInvalid ≤ s → VersionChange.valid s = false) := by
  refine ⟨valid_iff s, valid_cases s, ?_, ?_⟩
  · intro hs
    exact (not_valid_iff s).mpr (Or.inl hs)
  · intro hs
    exact (not_valid_iff s).mpr (Or.inr hs)

/-- Witness of C18: Major and None are valid; -1, the sentinel and the value
after it are not. -/
theorem valid_spec_witness :
    VersionChange.valid VersionChangeMajor = true ∧
      VersionChange.valid VersionChangeNone = true ∧
      VersionChange.valid (-1) = false ∧
      VersionChange.valid versionChangeInvalid = false ∧
      VersionChange.valid (versionChangeInvalid + 1) = false :=
  ⟨(valid_spec VersionChangeMajor).1.mpr (by decide),
   (valid_spec VersionChangeNone).2.1.mpr (Or.inl rfl),
   (valid_spec (-1)).2.2.1 (by decide),
   (valid_spec versionChangeInvalid).2.2.2 (by decide),
   (valid_spec (versionChangeInvalid + 1)).2.2.2 (by decide)⟩

/-- C19. `String` returns "Invalid" for every invalid value, and for the four
valid severities the names "None", "Patch", "Minor" and "Major", which are
non-empty, differ from "Invalid" and differ from one another. -/
theorem String_spec :
    (∀ vc, VersionChange.valid vc = false → VersionChange.String vc = "Invalid") ∧
      VersionChange.String VersionChangeNone = "None" ∧
      VersionChange.String VersionChangePatch = "Patch" ∧
      VersionChange.String VersionChangeMinor = "Minor" ∧
      VersionChange.String VersionChangeMajor = "Major" ∧
      (∀ vc, VersionChange.valid vc = true →
        VersionChange.String vc ≠ "" ∧ VersionChange.String vc ≠ "Invalid") ∧
      (∀ a b, VersionChange.valid a = true → VersionChange.valid b = true →
        VersionChange.String a = VersionChange.String b → a = b) := by
  have hcases : ∀ vc, VersionChange.valid vc = true → vc = 0 ∨ vc = 1 ∨ vc = 2 ∨ vc = 3 :=
    fun vc hv => (valid_cases vc).mp hv
  refine ⟨?_, by decide, by decide, by decide, by decide, ?_, ?_⟩
  · intro vc hv
    simp only [VersionChange.String, hv, Bool.not_false, if_true]
    decide
  · intro vc hv
    rcases hcases vc hv with h | h | h | h <;> subst h <;> decide
  · intro a b ha hb
    rcases hcases a ha with h | h | h | h <;> subst h <;>
      rcases hcases b hb with h' | h' | h' | h' <;> subst h' <;> decide

/-- Witness of C19: the sentinel, -1 and the value after the sentinel are
named "Invalid"; Minor is not. -/
theorem String_spec_witness :
    VersionChange.String versionChangeInvalid = "Invalid" ∧
      VersionChange.String (-1) = "Invalid" ∧
      VersionChange.String (versionChangeInvalid + 1) = "Invalid" ∧
      (VersionChange.String VersionChangeMinor ≠ "" ∧
        VersionChange.String VersionChangeMinor ≠ "Invalid") :=
  ⟨String_spec.1 versionChangeInvalid (by decide), String_spec.1 (-1) (by decide),
   String_spec.1 (versionChangeInvalid + 1) (by decide),
   String_spec.2.2.2.2.2.1 VersionChangeMinor (by decide)⟩

/-! ## Missing fetcher and error propagation (C17, C15) -/

/-- C17. Without a fetcher, `PRVersionChange` and `NextVersion` panic for every
identifier list, the empty one included, whatever the previous version and the
semantic-version package. -/
theorem nil_fetcher_panics {V σ ε : Type} (toLower : String → String) (semver : Semver V)
    (cfg : Config σ ε) (st : σ) (prevVersion : String) (ids : List Int)
    (hnil : cfg.PRLabelFetcher = none) :
    cfg.PRVersionChange toLower st ids = Run.panic "PRLabelFetcher shant be nil" ∧
      cfg.NextVersion toLower semver st prevVersion ids =
        Run.panic "PRLabelFetcher shant be nil" ∧
      cfg.PRVersionChange toLower st [] = Run.panic "PRLabelFetcher shant be nil" := by
  have h : ∀ l, cfg.PRVersionChange toLower st l = Run.panic "PRLabelFetcher shant be nil" := by
    intro l
    simp only [Config.PRVersionChange, Config.prLabels, hnil]
  refine ⟨h ids, ?_, h []⟩
  simp only [Config.NextVersion, h ids]

/-- Witness of C17: the zero configuration on 1, 2, 3 and on the empty list. -/
theorem nil_fetcher_panics_witness :
    (nilFetcherConfig.PRVersionChange asciiToLower () [1, 2, 3] =
        Run.panic "PRLabelFetcher shant be nil" ∧
      nilFetcherConfig.NextVersion asciiToLower specSemver () "v1.2.3" [1, 2, 3] =
        Run.panic "PRLabelFetcher shant be nil" ∧
      nilFetcherConfig.PRVersionChange asciiToLower () [] =
        Run.panic "PRLabelFetcher shant be nil") ∧
    nilFetcherConfig.NextVersion asciiToLower specSemver () "v1.2.3" [] =
      Run.panic "PRLabelFetcher shant be nil" :=
  ⟨nil_fetcher_panics asciiToLower specSemver nilFetcherConfig () "v1.2.3" [1, 2, 3] rfl,
   (nil_fetcher_panics asciiToLower specSemver nilFetcherConfig () "v1.2.3" [] rfl).2.1⟩

theorem prLabelsLoop_shape {σ ε : Type} (toLower : String → String)
    (fetch : FetchPRLabels σ ε) (ids : List Int) (acc : GoMap Int (List String)) (st : σ) :
    (∃ err st', prLabelsLoop toLower fetch ids acc st =
        ((none, some (Err.PRLabelFetcherErr err)), st')) ∨
      (∃ m st', prLabelsLoop toLower fetch ids acc st = ((some m, none), st')) := by
  induction ids generalizing acc st with
  | nil => exact Or.inr ⟨acc, st, rfl⟩
  | cons id rest ih =>
    rcases hf : fetch st id with ⟨⟨labels, _ | err⟩, s'⟩
    · rw [prLabelsLoop_cons_ok toLower fetch id rest acc st s' labels hf]
      exact ih _ _
    · rw [prLabelsLoop_cons_err toLower fetch id rest acc st s' labels err hf]
      exact Or.inl ⟨err, s', rfl⟩

theorem PRVersionChange_shape {σ ε : Type} (toLower : String → String) (cfg : Config σ ε)
    (fetch : FetchPRLabels σ ε) (st : σ) (ids : List Int)
    (hfetcher : cfg.PRLabelFetcher = some fetch) :
    (∃ err st', cfg.PRVersionChange toLower st ids =
        Run.ret ((0, some (Err.PRLabelFetcherErr err)), st')) ∨
      (∃ m st', cfg.PRVersionChange toLower st ids =
        if cfg.RequireLabels = true ∧ missingIDs toLower cfg m ≠ [] then
          Run.ret ((0, some (Err.PRMissingLabelErr (missingIDs toLower cfg m))), st')
        else
          match versionChangeLoop toLower cfg m VersionChangeNone with
          | Run.panic msg => Run.panic msg
          | Run.ret versionChange => Run.ret ((versionChange, none), st')) := by
  rcases prLabelsLoop_shape toLower fetch ids [] st with ⟨err, st', h⟩ | ⟨m, st', h⟩
  · left
    refine ⟨err, st', ?_⟩
    simp only [Config.PRVersionChange, Config.prLabels, hfetcher, h]
  · right
    refine ⟨m, st', ?_⟩
    simp only [Config.PRVersionChange, Config.prLabels, hfetcher, h, Option.getD_some,
      requireLabels_eq]
    by_cases hc : cfg.RequireLabels = true ∧ missingIDs toLower cfg m ≠ []
    · simp only [if_pos hc]
    · simp only [if_neg hc]

theorem PRVersionChange_error_kind {σ ε : Type} (toLower : String → String) (cfg : Config σ ε)
    (st : σ) (ids : List Int) (vc : VersionChange) (e : Err ε) (st' : σ)
    (h : cfg.PRVersionChange toLower st ids = Run.ret ((vc, some e), st')) :
    vc = 0 ∧ ((∃ err, e = Err.PRLabelFetcherErr err) ∨ ∃ IDs, e = Err.PRMissingLabelErr IDs) := by
  cases hf : cfg.PRLabelFetcher with
  | none => simp [Config.PRVersionChange, Config.prLabels, hf] at h
  | some fetch =>
    rcases PRVersionChange_shape toLower cfg fetch st ids hf with ⟨err, s', hs⟩ | ⟨m, s', hs⟩
    · rw [hs] at h
      simp only [Run.ret.injEq, Prod.mk.injEq, Option.some.injEq] at h
      exact ⟨h.1.1.symm, Or.inl ⟨err, h.1.2.symm⟩⟩
    · rw [hs] at h
      by_cases hc : cfg.RequireLabels = true ∧ missingIDs toLower cfg m ≠ []
      · rw [if_pos hc] at h
        simp only [Run.ret.injEq, Prod.mk.injEq, Option.some.injEq] at h
        exact ⟨h.1.1.symm, Or.inr ⟨_, h.1.2.symm⟩⟩
      · rw [if_neg hc] at h
        split at h <;> simp at h

/-- C15. When `PRVersionChange` returns an error, `NextVersion` returns the
empty string and that same error, a `PRLabelFetcherErr` or a
`PRMissingLabelErr`, whatever the previous version and the semantic-version
package; when `PRVersionChange` returns a severity without error,
`NextVersion` returns what `nextVersion` returns for it; a panic of
`PRVersionChange` is a panic of `NextVersion`. -/
theorem NextVersion_propagates {V σ ε : Type} (toLower : String → String) (semver : Semver V)
    (cfg : Config σ ε) (st : σ) (prevVersion : String) (ids : List Int) :
    (∀ vc e st', cfg.PRVersionChange toLower st ids = Run.ret ((vc, some e), st') →
        cfg.NextVersion toLower semver st prevVersion ids = Run.ret (("", some e), st') ∧
          ((∃ err, e = Err.PRLabelFetcherErr err) ∨ ∃ IDs, e = Err.PRMissingLabelErr IDs)) ∧
      (∀ s st', cfg.PRVersionChange toLower st ids = Run.ret ((s, none), st') →
        cfg.NextVersion toLower semver st prevVersion ids =
          match nextVersion semver prevVersion s with
          | Run.panic msg => Run.panic msg
          | Run.ret r => Run.ret (r, st')) ∧
      (∀ msg, cfg.PRVersionChange toLower st ids = Run.panic msg →
        cfg.NextVersion toLower semver st prevVersion ids = Run.panic msg) := by
  refine ⟨?_, ?_, ?_⟩
  · intro vc e st' h
    refine ⟨?_, (PRVersionChange_error_kind toLower cfg st ids vc e st' h).2⟩
    simp only [Config.NextVersion, h]
  · intro s st' h
    simp only [Config.NextVersion, h]
  · intro msg h
    simp only [Config.NextVersion, h]

/-- Witness of C15: the "missing label" batch gives `PRMissingLabelErr` with
`IDs` 1, for a previous version that parses and for one that does not. -/
theorem NextVersion_propagates_witness :
    (missingLabelConfig.NextVersion asciiToLower specSemver () "v1.2.3" [1, 2, 3] =
        Run.ret (("", some (Err.PRMissingLabelErr [1])), ()) ∧
      ((∃ err, (Err.PRMissingLabelErr [1] : Err String) = Err.PRLabelFetcherErr err) ∨
        ∃ IDs, (Err.PRMissingLabelErr [1] : Err String) = Err.PRMissingLabelErr IDs)) ∧
    missingLabelConfig.NextVersion asciiToLower specSemver () "limabeans" [1, 2, 3] =
      Run.ret (("", some (Err.PRMissingLabelErr [1])), ()) ∧
    (exampleConfig true).NextVersion asciiToLower specSemver () "v1.2.3" [1, 2] =
      Run.ret (("v1.3.0", none), ()) :=
  ⟨(NextVersion_propagates asciiToLower specSemver missingLabelConfig () "v1.2.3"
      [1, 2, 3]).1 0 (Err.PRMissingLabelErr [1]) () (by decide),
   ((NextVersion_propagates asciiToLower specSemver missingLabelConfig () "limabeans"
      [1, 2, 3]).1 0 (Err.PRMissingLabelErr [1]) () (by decide)).1,
   ((NextVersion_propagates asciiToLower specSemver (exampleConfig true) () "v1.2.3"
      [1, 2]).2.1 VersionChangeMinor () (by decide)).trans (by decide)⟩

/-! ## The effective table and the label map (C12, C16) -/

/-- C12. Without a table in the configuration the effective table is
`defaultLabelValues`, whose keys lower-cased are "non-production change",
"patch", "minor change" and "breaking change"; a table in the configuration is
the effective table as it stands, nothing of the default being merged in, so a
label that is no key of it resolves to None and is not found by
`containsAnyLabel`. -/
theorem effective_table_spec {σ ε : Type} (toLower : String → String) (cfg : Config σ ε) :
    (cfg.LabelValues = none →
        cfg.effectiveTable = defaultLabelValues ∧
          cfg.labelValues asciiToLower =
            [("non-production change", VersionChangeNone), ("patch", VersionChangePatch),
              ("minor change", VersionChangeMinor), ("breaking change", VersionChangeMajor)]) ∧
      (∀ t, cfg.LabelValues = some t →
        cfg.effectiveTable = t ∧ cfg.labelValues toLower = labelValuesLoop toLower t []) ∧
      (cfg.effectiveTable = defaultLabelValues ↔
        cfg.LabelValues = none ∨ cfg.LabelValues = some defaultLabelValues) ∧
      (∀ t l, cfg.LabelValues = some t →
        (∀ key ∈ GoMap.keys t, toLower key ≠ toLower l) →
        cfg.resolve toLower l = VersionChangeNone ∧
          cfg.containsAnyLabel toLower [l] = false ∧
          cfg.maxVersionChange toLower [l] = Run.ret VersionChangeNone) := by
  refine ⟨?_, ?_, ?_, ?_⟩
  · intro h
    have he : cfg.effectiveTable = defaultLabelValues := by
      simp only [Config.effectiveTable, h]
    refine ⟨he, ?_⟩
    simp only [Config.labelValues, he]
    decide
  · intro t h
    have he : cfg.effectiveTable = t := by
      simp only [Config.effectiveTable, h]
    exact ⟨he, by simp only [Config.labelValues, he]⟩
  · cases h : cfg.LabelValues with
    | none => simp [Config.effectiveTable, h]
    | some t => simp [Config.effectiveTable, h]
  · intro t l h hkeys
    have he : cfg.effectiveTable = t := by
      simp only [Config.effectiveTable, h]
    have hnone : GoMap.get? (cfg.labelValues toLower) (toLower l) = none := by
      rw [labelValues_get?_none, he]
      intro e hmem
      exact hkeys e.1 (List.mem_map.mpr ⟨e, hmem, rfl⟩)
    have hres : cfg.resolve toLower l = VersionChangeNone := by
      simp [Config.resolve, GoMap.get, hnone, VersionChangeNone]
    refine ⟨hres, ?_, ?_⟩
    · simp [Config.containsAnyLabel, containsAnyLabelLoop, hnone]
    · have hg : VersionChange.greater 0 VersionChangeNone = Run.ret VersionChangeNone := by
        decide
      simp [Config.maxVersionChange, maxVersionChangeLoop, GoMap.get, hnone, hg]

/-- Witness of C12: "Patch" under the table with the one key "b", and under
the default table. -/
theorem effective_table_spec_witness :
    (bConfig.resolve asciiToLower "Patch" = VersionChangeNone ∧
      bConfig.containsAnyLabel asciiToLower ["Patch"] = false ∧
      bConfig.maxVersionChange asciiToLower ["Patch"] = Run.ret VersionChangeNone) ∧
    ((exampleConfig true).effectiveTable = defaultLabelValues ∧
      (exampleConfig true).labelValues asciiToLower =
        [("non-production change", VersionChangeNone), ("patch", VersionChangePatch),
          ("minor change", VersionChangeMinor), ("breaking change", VersionChangeMajor)]) ∧
    (exampleConfig true).resolve asciiToLower "Patch" = VersionChangePatch ∧
    (exampleConfig true).containsAnyLabel asciiToLower ["Patch"] = true :=
  ⟨(effective_table_spec asciiToLower bConfig).2.2.2 [("b", VersionChangeNone)] "Patch" rfl
      (by decide),
   (effective_table_spec asciiToLower (exampleConfig true)).1 rfl,
   by decide, by decide⟩

/-- C16. When every fetch succeeds, `prLabels` returns a map whose keys are
exactly the requested identifiers, each once, and whose value for an identifier
is the list of its fetched labels lower-cased one by one: same length, same
order, repetitions kept, and the empty list when no label was fetched. -/
theorem prLabels_success {σ ε : Type} (toLower : String → String) (cfg : Config σ ε)
    (fetch : FetchPRLabels σ ε) (labelsOf : Int → List String) (st : σ) (ids : List Int)
    (hfetcher : cfg.PRLabelFetcher = some fetch)
    (hfetch : ∀ s, ∀ id ∈ ids, (fetch s id).1 = (labelsOf id, none)) :
    ∃ m st', cfg.prLabels toLower st ids = Run.ret ((some m, none), st') ∧
      (GoMap.keys m).Nodup ∧
      (∀ id, id ∈ GoMap.keys m ↔ id ∈ ids) ∧
      (∀ id ∈ ids, GoMap.get? m id = some ((labelsOf id).map toLower)) ∧
      (∀ id ∈ ids, ∀ ls, GoMap.get? m id = some ls →
        ls.length = (labelsOf id).length ∧
          ∀ i : Nat, ls[i]? = Option.map toLower (labelsOf id)[i]?) ∧
      (∀ id ∈ ids, labelsOf id = [] → GoMap.get? m id = some []) := by
  obtain ⟨st', hst'⟩ := prLabelsLoop_of_success toLower fetch labelsOf ids hfetch [] st
  have hnd := labelMap_nodup toLower labelsOf ids [] (by simp [GoMap.keys])
  have hget : ∀ id ∈ ids, GoMap.get? (labelMap toLower labelsOf ids []) id =
      some ((labelsOf id).map toLower) := by
    intro id hid
    exact GoMap.get?_of_mem _ _ _ hnd
      ((labelMap_mem_iff toLower labelsOf ids (id, (labelsOf id).map toLower)).mpr ⟨hid, rfl⟩)
  refine ⟨labelMap toLower labelsOf ids [], st', ?_, hnd, ?_, hget, ?_, ?_⟩
  · simp only [Config.prLabels, hfetcher, hst']
  · intro id
    rw [labelMap_keys]
    simp [GoMap.keys]
  · intro id hid ls hls
    rw [hget id hid] at hls
    simp only [Option.some.injEq] at hls
    rw [← hls]
    exact ⟨List.length_map _ _, fun i => List.getElem?_map _ _ _⟩
  · intro id hid hnil
    rw [hget id hid, hnil]
    rfl

/-- Witness of C16: the batch of the `prLabels` test. -/
theorem prLabels_success_witness :
    prLabelsTestConfig.prLabels asciiToLower () [1, 2, 3] =
        Run.ret ((some [(1, ["foo", "bar"]), (2, ["baz", "qux"]), (3, [])], none), ()) ∧
      ∃ m st', prLabelsTestConfig.prLabels asciiToLower () [1, 2, 3] =
          Run.ret ((some m, none), st') ∧
        (GoMap.keys m).Nodup ∧
        (∀ id, id ∈ GoMap.keys m ↔ id ∈ [1, 2, 3]) ∧
        (∀ id ∈ [1, 2, 3], GoMap.get? m id =
          some ((GoMap.get [] prLabelsTestLabels id).map asciiToLower)) ∧
        (∀ id ∈ [1, 2, 3], ∀ ls, GoMap.get? m id = some ls →
          ls.length = (GoMap.get [] prLabelsTestLabels id).length ∧
            ∀ i : Nat, ls[i]? = Option.map asciiToLower (GoMap.get [] prLabelsTestLabels id)[i]?) ∧
        (∀ id ∈ [1, 2, 3], GoMap.get [] prLabelsTestLabels id = [] →
          GoMap.get? m id = some []) :=
  ⟨by rfl,
   prLabels_success asciiToLower prLabelsTestConfig (tableFetcher prLabelsTestLabels)
    (GoMap.get [] prLabelsTestLabels) () [1, 2, 3] rfl (fun _ _ _ => rfl)⟩

/-! ## Labels mapped to None, and safety of the bump (C11, C20) -/

theorem nextVersion_returns {V ε : Type} (semver : Semver V) (prevVersion : String)
    (bump : VersionChange) (hbump : VersionChange.valid bump = true) :
    ∃ r, (nextVersion semver prevVersion bump : Run (String × Option (Err ε))) = Run.ret r := by
  simp only [nextVersion, mustBeValid_of_valid hbump]
  cases semver.NewVersion prevVersion with
  | none => exact ⟨_, rfl⟩
  | some prev => exact ⟨_, rfl⟩

/-- C20. With a fetcher and a table whose values are all valid,
`PRVersionChange` returns for every identifier list and every behaviour of the
fetcher, the severity it returns is valid and passes `mustBeValid`, and
`NextVersion` returns as well: the check at the start of `nextVersion` never
fails on that path. -/
theorem PRVersionChange_safe {V σ ε : Type} (toLower : String → String) (semver : Semver V)
    (cfg : Config σ ε) (fetch : FetchPRLabels σ ε) (st : σ) (prevVersion : String)
    (ids : List Int) (hfetcher : cfg.PRLabelFetcher = some fetch)
    (hvalid : ∀ e ∈ cfg.effectiveTable, VersionChange.valid e.2 = true) :
    (∃ vc err st', cfg.PRVersionChange toLower st ids = Run.ret ((vc, err), st') ∧
        VersionChange.valid vc = true ∧ VersionChange.mustBeValid vc = Run.ret ()) ∧
      (∃ r, cfg.NextVersion toLower semver st prevVersion ids = Run.ret r) := by
  have hpr : ∃ vc err st', cfg.PRVersionChange toLower st ids = Run.ret ((vc, err), st') ∧
      VersionChange.valid vc = true := by
    rcases PRVersionChange_shape toLower cfg fetch st ids hfetcher with
      ⟨err, st', hs⟩ | ⟨m, st', hs⟩
    · exact ⟨0, _, st', hs, valid_none⟩
    · by_cases hc : cfg.RequireLabels = true ∧ missingIDs toLower cfg m ≠ []
      · rw [if_pos hc] at hs
        exact ⟨0, _, st', hs, valid_none⟩
      · rw [if_neg hc, versionChangeLoop_eq toLower cfg hvalid _ _ valid_none] at hs
        refine ⟨_, none, st', hs, ?_⟩
        apply maxFrom_valid _ _ valid_none
        intro x hx
        obtain ⟨e, _, rfl⟩ := List.mem_map.mp hx
        exact severity_valid toLower cfg hvalid e.2
  obtain ⟨vc, err, st', hs, hv⟩ := hpr
  refine ⟨⟨vc, err, st', hs, hv, mustBeValid_of_valid hv⟩, ?_⟩
  cases err with
  | some e => exact ⟨(("", some e), st'), by simp only [Config.NextVersion, hs]⟩
  | none =>
    obtain ⟨r, hr⟩ := nextVersion_returns (ε := ε) semver prevVersion vc hv
    exact ⟨(r, st'), by simp only [Config.NextVersion, hs, hr]⟩

/-- Witness of C20: the logging fetcher that fails on 2, and the example batch. -/
theorem PRVersionChange_safe_witness :
    ((∃ vc err st', (loggingConfig 2 true).PRVersionChange asciiToLower [] [1, 2, 3] =
          Run.ret ((vc, err), st') ∧
        VersionChange.valid vc = true ∧ VersionChange.mustBeValid vc = Run.ret ()) ∧
      (∃ r, (loggingConfig 2 true).NextVersion asciiToLower specSemver [] "v1.2.3" [1, 2, 3] =
        Run.ret r)) ∧
    (exampleConfig false).NextVersion asciiToLower specSemver () "v1.2.3" [1, 2, 3] =
      Run.ret (("v1.3.0", none), ()) :=
  ⟨PRVersionChange_safe asciiToLower specSemver (loggingConfig 2 true) (loggingFetcher 2) []
      "v1.2.3" [1, 2, 3] rfl (by decide),
   by decide⟩

/-! ## Malformed tables (C21) -/

theorem maxVersionChangeLoop_panics (toLower : String → String)
    (labelValues : GoMap String VersionChange) (labels : List String)
    (hbad : ∃ l ∈ labels, VersionChange.valid (GoMap.get 0 labelValues (toLower l)) = false)
    (change : VersionChange) :
    ∃ msg, maxVersionChangeLoop toLower labelValues labels change = Run.panic msg := by
  induction labels generalizing change with
  | nil =>
    obtain ⟨l, hl, _⟩ := hbad
    exact absurd hl (List.not_mem_nil _)
  | cons x rest ih =>
    simp only [maxVersionChangeLoop]
    cases hg : VersionChange.greater (GoMap.get 0 labelValues (toLower x)) change with
    | panic msg => exact ⟨msg, rfl⟩
    | ret c =>
      obtain ⟨l, hl, hv⟩ := hbad
      rcases List.mem_cons.mp hl with rfl | hrest
      · rw [greater_of_not_valid_left change hv] at hg
        exact absurd hg (by simp)
      · exact ih ⟨l, hrest, hv⟩ c

theorem versionChangeLoop_panics {σ ε : Type} (toLower : String → String) (cfg : Config σ ε)
    (m : List (Int × List String))
    (hbad : ∃ e ∈ m, ∃ l ∈ e.2, VersionChange.valid (cfg.resolve toLower l) = false)
    (versionChange : VersionChange) :
    ∃ msg, versionChangeLoop toLower cfg m versionChange = Run.panic msg := by
  induction m generalizing versionChange with
  | nil =>
    obtain ⟨e, he, _⟩ := hbad
    exact absurd he (List.not_mem_nil _)
  | cons x rest ih =>
    obtain ⟨id, labels⟩ := x
    simp only [versionChangeLoop]
    cases hmax : cfg.maxVersionChange toLower labels with
    | panic msg => exact ⟨msg, rfl⟩
    | ret change =>
      obtain ⟨e, he, l, hl, hv⟩ := hbad
      rcases List.mem_cons.mp he with rfl | hrest
      · obtain ⟨msg, hmsg⟩ :=
          maxVersionChangeLoop_panics toLower (cfg.labelValues toLower) labels ⟨l, hl, hv⟩
            VersionChangeNone
        rw [Config.maxVersionChange, hmsg] at hmax
        exact absurd hmax (by simp)
      · cases hg : VersionChange.greater change versionChange with
        | panic msg => exact ⟨msg, by simp only [hg]⟩
        | ret c =>
          obtain ⟨msg, hmsg⟩ := ih ⟨e, hrest, l, hl, hv⟩ c
          exact ⟨msg, by simp only [hg, hmsg]⟩

theorem resolve_not_valid {σ ε : Type} (toLower : String → String) (cfg : Config σ ε)
    (key : String) (v : VersionChange) (hentry : (key, v) ∈ cfg.effectiveTable)
    (hbad : ∀ e ∈ cfg.effectiveTable, toLower e.1 = toLower key →
      VersionChange.valid e.2 = false)
    (l : String) (hl : toLower l = toLower key) :
    VersionChange.valid (cfg.resolve toLower l) = false := by
  unfold Config.resolve GoMap.get
  rw [hl]
  cases hget : GoMap.get? (cfg.labelValues toLower) (toLower key) with
  | none =>
    exact absurd rfl ((labelValues_get?_none toLower cfg _).mp hget (key, v) hentry)
  | some w =>
    rcases labelValuesLoop_get?_some toLower _ _ _ _ hget with h1 | ⟨e, he, hk, hv⟩
    · simp [GoMap.get?] at h1
    · simpa [← hv] using hbad e he hk

/-- C21 as amended. For a table in the configuration that maps a label to an
out-of-range severity, every key with the same lower-casing being mapped out of
range too, and a batch whose fetches all succeed, which passes validation and in
which some pull request carries that label in any casing, `PRVersionChange`
panics: it returns no severity, neither the out-of-range value nor a valid
one. -/
theorem malformed_table_panics {σ ε : Type} (toLower : String → String)
    (hidem : ∀ s, toLower (toLower s) = toLower s) (cfg : Config σ ε)
    (fetch : FetchPRLabels σ ε) (labelsOf : Int → List String) (st : σ) (ids : List Int)
    (table : GoMap String VersionChange) (key : String) (v : VersionChange)
    (htable : cfg.LabelValues = some table)
    (hentry : (key, v) ∈ table)
    (hbad : ∀ e ∈ table, toLower e.1 = toLower key → VersionChange.valid e.2 = false)
    (hfetcher : cfg.PRLabelFetcher = some fetch)
    (hfetch : ∀ s, ∀ id ∈ ids, (fetch s id).1 = (labelsOf id, none))
    (hpass : cfg.RequireLabels = false ∨
      ∀ id ∈ ids, cfg.containsAnyLabel toLower (labelsOf id) = true)
    (hcarries : ∃ id ∈ ids, ∃ l ∈ labelsOf id, toLower l = toLower key) :
    VersionChange.valid v = false ∧
      (∃ msg, cfg.PRVersionChange toLower st ids = Run.panic msg) ∧
      (∀ r, cfg.PRVersionChange toLower st ids ≠ Run.ret r) := by
  have he : cfg.effectiveTable = table := by
    simp only [Config.effectiveTable, htable]
  have hpanic : ∃ msg, cfg.PRVersionChange toLower st ids = Run.panic msg := by
    obtain ⟨st', hst'⟩ :=
      PRVersionChange_of_fetched toLower cfg fetch labelsOf st ids hfetcher hfetch
    have hnot : ¬ (cfg.RequireLabels = true ∧
        missingIDs toLower cfg (labelMap toLower labelsOf ids []) ≠ []) := by
      rintro ⟨hr, hm⟩
      rcases hpass with h | h
      · rw [h] at hr
        exact Bool.false_ne_true hr
      · exact hm ((missingIDs_eq_nil_iff toLower hidem cfg labelsOf ids).mpr h)
    rw [if_neg hnot] at hst'
    obtain ⟨id, hid, l, hl, hlk⟩ := hcarries
    have hmem : (id, (labelsOf id).map toLower) ∈ labelMap toLower labelsOf ids [] :=
      (labelMap_mem_iff toLower labelsOf ids _).mpr ⟨hid, rfl⟩
    have hres : VersionChange.valid (cfg.resolve toLower (toLower l)) = false :=
      resolve_not_valid toLower cfg key v (by rw [he]; exact hentry)
        (by rw [he]; exact hbad) (toLower l) (by rw [hidem, hlk])
    obtain ⟨msg, hmsg⟩ := versionChangeLoop_panics toLower cfg _
      ⟨_, hmem, toLower l, List.mem_map.mpr ⟨l, hl, rfl⟩, hres⟩ VersionChangeNone
    rw [hmsg] at hst'
    exact ⟨msg, hst'⟩
  refine ⟨hbad (key, v) hentry rfl, hpanic, ?_⟩
  intro r hr
  obtain ⟨msg, hmsg⟩ := hpanic
  rw [hmsg] at hr
  exact absurd hr (by simp)

/-- Witness of C21 as amended: the key "Bad" mapped to 7, to the sentinel and
to -1, with a pull request labelled "BAD". -/
theorem malformed_table_panics_witness :
    (VersionChange.valid 7 = false ∧
      (∃ msg, (tableConfig [("Bad", 7), ("ok", VersionChangePatch)]
        [(1, ["ok"]), (2, ["BAD", "ok"])]).PRVersionChange asciiToLower () [1, 2] =
          Run.panic msg) ∧
      (∀ r, (tableConfig [("Bad", 7), ("ok", VersionChangePatch)]
        [(1, ["ok"]), (2, ["BAD", "ok"])]).PRVersionChange asciiToLower () [1, 2] ≠
          Run.ret r)) ∧
    (tableConfig [("Bad", 7), ("ok", VersionChangePatch)]
      [(1, ["ok"]), (2, ["BAD", "ok"])]).PRVersionChange asciiToLower () [1, 2] =
        Run.panic "7 is not a valid VersionChange" ∧
    (tableConfig [("Bad", versionChangeInvalid)] [(1, ["BAD"])]).PRVersionChange
      asciiToLower () [1] = Run.panic "4 is not a valid VersionChange" ∧
    (tableConfig [("Bad", -1)] [(1, ["BAD"])]).PRVersionChange
      asciiToLower () [1] = Run.panic "-1 is not a valid VersionChange" :=
  ⟨malformed_table_panics asciiToLower asciiToLower_idem
      (tableConfig [("Bad", 7), ("ok", VersionChangePatch)] [(1, ["ok"]), (2, ["BAD", "ok"])])
      (tableFetcher [(1, ["ok"]), (2, ["BAD", "ok"])])
      (GoMap.get [] [(1, ["ok"]), (2, ["BAD", "ok"])]) () [1, 2]
      [("Bad", 7), ("ok", VersionChangePatch)] "Bad" 7 rfl (by decide) (by decide) rfl
      (fun _ _ _ => rfl) (Or.inr (by decide)) ⟨2, by decide, "BAD", by decide, by decide⟩,
   by decide, by decide, by decide⟩

/-- Counterexample to C21 as stated. The table `shadowedTable` maps "Bad" to the
out-of-range value 7; the fetch of pull request 1 succeeds with the label "bad",
the same label in another casing, and the batch passes validation; yet
`PRVersionChange` returns Patch, the value of the key "bad" that replaced the
value of "Bad" in the lower-cased table. -/
theorem malformed_table_shadowed :
    ("Bad", 7) ∈ shadowedTable ∧
      VersionChange.valid 7 = false ∧
      asciiToLower "bad" = asciiToLower "Bad" ∧
      (tableConfig shadowedTable [(1, ["bad"])]).prLabels asciiToLower () [1] =
        Run.ret ((some [(1, ["bad"])], none), ()) ∧
      (tableConfig shadowedTable [(1, ["bad"])]).requireLabels asciiToLower [(1, ["bad"])] =
        none ∧
      (tableConfig shadowedTable [(1, ["bad"])]).resolve asciiToLower "bad" =
        VersionChangePatch ∧
      (tableConfig shadowedTable [(1, ["bad"])]).PRVersionChange asciiToLower () [1] =
        Run.ret ((VersionChangePatch, none), ()) ∧
      ¬ ∃ msg, (tableConfig shadowedTable [(1, ["bad"])]).PRVersionChange asciiToLower () [1] =
        Run.panic msg := by
  refine ⟨by decide, by decide, by decide, by rfl, by decide, by decide, by decide, ?_⟩
  rintro ⟨msg, hmsg⟩
  have h : (tableConfig shadowedTable [(1, ["bad"])]).PRVersionChange asciiToLower () [1] =
      Run.ret ((VersionChangePatch, none), ()) := by decide
  rw [h] at hmsg
  exact absurd hmsg (by simp)

/-! ## The order of the label table (C1, C6) -/

theorem loweredTable_nodup {σ ε : Type} (toLower : String → String) (cfg : Config σ ε)
    (hnd : (cfg.effectiveTable.map (fun e => toLower e.1)).Nodup) :
    (GoMap.keys (cfg.loweredTable toLower)).Nodup := by
  simpa [GoMap.keys, Config.loweredTable, List.map_map, Function.comp_def] using hnd

theorem labelValues_get?_table_perm {σ ε : Type} (toLower : String → String)
    (cfg cfg' : Config σ ε)
    (hnd : (cfg.effectiveTable.map (fun e => toLower e.1)).Nodup)
    (htable : cfg.effectiveTable.Perm cfg'.effectiveTable) (k : String) :
    GoMap.get? (cfg'.labelValues toLower) k = GoMap.get? (cfg.labelValues toLower) k := by
  have hlow : (cfg.loweredTable toLower).Perm (cfg'.loweredTable toLower) :=
    htable.map (fun e : String × VersionChange => (toLower e.1, e.2))
  exact (labelValues_get?_congr toLower cfg cfg' (loweredTable_nodup toLower cfg hnd) hlow
    k).symm

theorem resolve_table_perm {σ ε : Type} (toLower : String → String) (cfg cfg' : Config σ ε)
    (hnd : (cfg.effectiveTable.map (fun e => toLower e.1)).Nodup)
    (htable : cfg.effectiveTable.Perm cfg'.effectiveTable) :
    cfg'.resolve toLower = cfg.resolve toLower := by
  funext l
  simp only [Config.resolve, GoMap.get, labelValues_get?_table_perm toLower cfg cfg' hnd htable]

theorem containsAnyLabel_table_perm {σ ε : Type} (toLower : String → String)
    (cfg cfg' : Config σ ε) (htable : cfg.effectiveTable.Perm cfg'.effectiveTable)
    (labels : List String) :
    cfg'.containsAnyLabel toLower labels = cfg.containsAnyLabel toLower labels := by
  rw [Bool.eq_iff_iff, containsAnyLabel_eq_true_iff, containsAnyLabel_eq_true_iff]
  have hk : ∀ key, key ∈ GoMap.keys cfg'.effectiveTable ↔ key ∈ GoMap.keys cfg.effectiveTable :=
    fun key => ((htable.map Prod.fst).mem_iff).symm
  simp only [hk]

theorem missingIDs_table_perm {σ ε : Type} (toLower : String → String) (cfg cfg' : Config σ ε)
    (htable : cfg.effectiveTable.Perm cfg'.effectiveTable) (m : GoMap Int (List String)) :
    missingIDs toLower cfg' m = missingIDs toLower cfg m := by
  unfold missingIDs
  apply List.filter_congr
  intro id _
  rw [containsAnyLabel_table_perm toLower cfg cfg' htable]

theorem resolve_of_entry {σ ε : Type} (toLower : String → String) (cfg : Config σ ε)
    (hnd : (cfg.effectiveTable.map (fun e => toLower e.1)).Nodup) (l : String)
    (e : String × VersionChange) (he : e ∈ cfg.effectiveTable)
    (hkey : toLower e.1 = toLower l) : cfg.resolve toLower l = e.2 := by
  have hmem : (toLower l, e.2) ∈ cfg.loweredTable toLower :=
    List.mem_map.mpr ⟨e, he, by rw [hkey]⟩
  have hget := (labelValues_get?_iff toLower cfg (loweredTable_nodup toLower cfg hnd)
    (toLower l) e.2).mpr hmem
  simp [Config.resolve, GoMap.get, hget]

theorem resolve_of_no_entry {σ ε : Type} (toLower : String → String) (cfg : Config σ ε)
    (l : String) (hno : ∀ e ∈ cfg.effectiveTable, toLower e.1 ≠ toLower l) :
    cfg.resolve toLower l = VersionChangeNone := by
  have hnone := (labelValues_get?_none toLower cfg (toLower l)).mpr hno
  simp [Config.resolve, GoMap.get, hnone, VersionChangeNone]

theorem PRVersionChange_table_perm {σ ε : Type} (toLower : String → String)
    (cfg cfg' : Config σ ε) (fetch : FetchPRLabels σ ε) (labelsOf : Int → List String)
    (st : σ) (ids ids' : List Int)
    (hfetcher : cfg.PRLabelFetcher = some fetch)
    (hvalid : ∀ e ∈ cfg.effectiveTable, VersionChange.valid e.2 = true)
    (hnd : (cfg.effectiveTable.map (fun e => toLower e.1)).Nodup)
    (hfetch : ∀ s, ∀ id ∈ ids, (fetch s id).1 = (labelsOf id, none))
    (hrequire : cfg'.RequireLabels = cfg.RequireLabels)
    (hsame : cfg'.PRLabelFetcher = cfg.PRLabelFetcher)
    (htable : cfg.effectiveTable.Perm cfg'.effectiveTable)
    (hperm : ids.Perm ids') :
    ∃ out st₁ st₂, cfg.PRVersionChange toLower st ids = Run.ret (out, st₁) ∧
      cfg'.PRVersionChange toLower st ids' = Run.ret (out, st₂) := by
  have hfetch' : ∀ s, ∀ id ∈ ids', (fetch s id).1 = (labelsOf id, none) :=
    fun s id hid => hfetch s id (hperm.mem_iff.mpr hid)
  have hvalid' : ∀ e ∈ cfg'.effectiveTable, VersionChange.valid e.2 = true :=
    fun e he => hvalid e (htable.mem_iff.mpr he)
  obtain ⟨st₁, h₁⟩ :=
    PRVersionChange_of_success toLower cfg fetch labelsOf st ids hfetcher hvalid hfetch
  obtain ⟨st₂, h₂⟩ :=
    PRVersionChange_of_success toLower cfg' fetch labelsOf st ids' (hsame.trans hfetcher)
      hvalid' hfetch'
  have hmap := labelMap_perm toLower labelsOf ids ids' hperm
  have hmnd := labelMap_nodup toLower labelsOf ids [] (by simp [GoMap.keys])
  have hsev : (fun e : Int × List String => cfg'.severity toLower e.2) =
      (fun e : Int × List String => cfg.severity toLower e.2) := by
    funext e
    simp only [Config.severity, resolve_table_perm toLower cfg cfg' hnd htable]
  refine ⟨_, st₁, st₂, h₁, ?_⟩
  rw [h₂, hrequire, missingIDs_table_perm toLower cfg cfg' htable, hsev,
    missingIDs_perm toLower cfg _ _ hmap hmnd,
    maxFrom_perm _ (hmap.map (fun e => cfg.severity toLower e.2))]

/-- C1 as amended. When the values of the table are all valid and its keys are
distinct after lower-casing, the fetcher is present and answers every requested
identifier without error, and the batch passes validation, `PRVersionChange`
returns no error and the maximum, under None < Patch < Minor < Major, of the
resolved severity of every label of every requested pull request: an upper
bound that is None or attained. It is None for the empty list and when no label
is a key of the table. The resolved severity of a label is the value of the
entry whose lower-cased key is the lower-cased label, None without such an
entry, and the result is the same in whatever order the table is visited. -/
theorem PRVersionChange_is_max {σ ε : Type} (toLower : String → String)
    (hidem : ∀ s, toLower (toLower s) = toLower s) (cfg : Config σ ε)
    (fetch : FetchPRLabels σ ε) (labelsOf : Int → List String) (st : σ) (ids : List Int)
    (hfetcher : cfg.PRLabelFetcher = some fetch)
    (hvalid : ∀ e ∈ cfg.effectiveTable, VersionChange.valid e.2 = true)
    (hnd : (cfg.effectiveTable.map (fun e => toLower e.1)).Nodup)
    (hfetch : ∀ s, ∀ id ∈ ids, (fetch s id).1 = (labelsOf id, none))
    (hpass : cfg.RequireLabels = false ∨
      ∀ id ∈ ids, cfg.containsAnyLabel toLower (labelsOf id) = true) :
    ∃ vc st', cfg.PRVersionChange toLower st ids = Run.ret ((vc, none), st') ∧
      (∀ id ∈ ids, ∀ l ∈ labelsOf id, cfg.resolve toLower l ≤ vc) ∧
      (vc = VersionChangeNone ∨ ∃ id ∈ ids, ∃ l ∈ labelsOf id, cfg.resolve toLower l = vc) ∧
      (ids = [] → vc = VersionChangeNone) ∧
      ((∀ id ∈ ids, ∀ l ∈ labelsOf id, ∀ key ∈ GoMap.keys cfg.effectiveTable,
          toLower key ≠ toLower l) → vc = VersionChangeNone) ∧
      (∀ l, (∀ e ∈ cfg.effectiveTable, toLower e.1 = toLower l →
            cfg.resolve toLower l = e.2) ∧
          ((∀ e ∈ cfg.effectiveTable, toLower e.1 ≠ toLower l) →
            cfg.resolve toLower l = VersionChangeNone)) ∧
      (∀ cfg' : Config σ ε, cfg'.RequireLabels = cfg.RequireLabels →
        cfg'.PRLabelFetcher = cfg.PRLabelFetcher →
        cfg.effectiveTable.Perm cfg'.effectiveTable →
        (∀ k, GoMap.get? (cfg'.labelValues toLower) k =
          GoMap.get? (cfg.labelValues toLower) k) ∧
        ∃ st'', cfg'.PRVersionChange toLower st ids = Run.ret ((vc, none), st'')) := by
  obtain ⟨st', hst'⟩ :=
    PRVersionChange_of_success toLower cfg fetch labelsOf st ids hfetcher hvalid hfetch
  have hnot : ¬ (cfg.RequireLabels = true ∧
      missingIDs toLower cfg (labelMap toLower labelsOf ids []) ≠ []) := by
    rintro ⟨hr, hm⟩
    rcases hpass with h | h
    · rw [h] at hr
      exact Bool.false_ne_true hr
    · exact hm ((missingIDs_eq_nil_iff toLower hidem cfg labelsOf ids).mpr h)
  rw [if_neg hnot] at hst'
  have hup := aggregate_upper toLower hidem cfg labelsOf ids
  have hat := aggregate_attained toLower hidem cfg labelsOf ids
  refine ⟨_, st', hst', hup, hat, ?_, ?_, ?_, ?_⟩
  · intro hnil
    rcases hat with h | ⟨id, hid, _⟩
    · exact h
    · rw [hnil] at hid
      exact absurd hid (List.not_mem_nil _)
  · intro hno
    rcases hat with h | ⟨id, hid, l, hl, hr⟩
    · exact h
    · rw [← hr]
      exact resolve_of_no_entry toLower cfg l
        (fun e he => hno id hid l hl e.1 (List.mem_map.mpr ⟨e, he, rfl⟩))
  · intro l
    exact ⟨fun e he hkey => resolve_of_entry toLower cfg hnd l e he hkey,
      resolve_of_no_entry toLower cfg l⟩
  · intro cfg' hrequire hsame htable
    refine ⟨labelValues_get?_table_perm toLower cfg cfg' hnd htable, ?_⟩
    obtain ⟨out, st₁, st₂, h₁, h₂⟩ :=
      PRVersionChange_table_perm toLower cfg cfg' fetch labelsOf st ids ids hfetcher hvalid
        hnd hfetch hrequire hsame htable (List.Perm.refl ids)
    rw [hst'] at h₁
    simp only [Run.ret.injEq, Prod.mk.injEq] at h₁
    rw [← h₁.1] at h₂
    exact ⟨st₂, h₂⟩

/-- Witness of C1 as amended: pull requests 1 and 2 of the example batch, labels
required, under the default table and under the same table in another order. -/
theorem PRVersionChange_is_max_witness :
    (exampleConfig true).PRVersionChange asciiToLower () [1, 2] =
        Run.ret ((VersionChangeMinor, none), ()) ∧
      reorderedDefaultConfig.PRVersionChange asciiToLower () [1, 2] =
        Run.ret ((VersionChangeMinor, none), ()) ∧
      ∃ vc st', (exampleConfig true).PRVersionChange asciiToLower () [1, 2] =
          Run.ret ((vc, none), st') ∧
        (∀ id ∈ [1, 2], ∀ l ∈ GoMap.get [] exampleLabels id,
          (exampleConfig true).resolve asciiToLower l ≤ vc) ∧
        (vc = VersionChangeNone ∨ ∃ id ∈ [1, 2], ∃ l ∈ GoMap.get [] exampleLabels id,
          (exampleConfig true).resolve asciiToLower l = vc) ∧
        (([1, 2] : List Int) = [] → vc = VersionChangeNone) ∧
        ((∀ id ∈ [1, 2], ∀ l ∈ GoMap.get [] exampleLabels id,
            ∀ key ∈ GoMap.keys (exampleConfig true).effectiveTable,
              asciiToLower key ≠ asciiToLower l) → vc = VersionChangeNone) ∧
        (∀ l, (∀ e ∈ (exampleConfig true).effectiveTable, asciiToLower e.1 = asciiToLower l →
              (exampleConfig true).resolve asciiToLower l = e.2) ∧
            ((∀ e ∈ (exampleConfig true).effectiveTable, asciiToLower e.1 ≠ asciiToLower l) →
              (exampleConfig true).resolve asciiToLower l = VersionChangeNone)) ∧
        (∀ cfg' : Config Unit String, cfg'.RequireLabels = (exampleConfig true).RequireLabels →
          cfg'.PRLabelFetcher = (exampleConfig true).PRLabelFetcher →
          (exampleConfig true).effectiveTable.Perm cfg'.effectiveTable →
          (∀ k, GoMap.get? (cfg'.labelValues asciiToLower) k =
            GoMap.get? ((exampleConfig true).labelValues asciiToLower) k) ∧
          ∃ st'', cfg'.PRVersionChange asciiToLower () [1, 2] = Run.ret ((vc, none), st'')) :=
  ⟨by decide, by decide,
   PRVersionChange_is_max asciiToLower asciiToLower_idem (exampleConfig true)
    (tableFetcher exampleLabels) (GoMap.get [] exampleLabels) () [1, 2] rfl (by decide)
    (by decide) (fun _ _ _ => rfl) (Or.inr (by decide))⟩

/-- Counterexample to C1 as stated. `collidingTable` and `collidingTableReversed`
are one map, with the valid values Patch for "A" and Major for "a", visited in
two orders; for the pull request labelled "a", whose fetch succeeds and which
passes validation, `PRVersionChange` returns Major in one order and Patch in the
other, so no severity that the table gives the label is returned in both. -/
theorem PRVersionChange_max_depends_on_order :
    collidingTable.Perm collidingTableReversed ∧
      (GoMap.keys collidingTable).Nodup ∧
      (∀ e ∈ collidingTable, VersionChange.valid e.2 = true) ∧
      (tableConfig collidingTable [(1, ["a"])]).PRVersionChange asciiToLower () [1] =
        Run.ret ((VersionChangeMajor, none), ()) ∧
      (tableConfig collidingTableReversed [(1, ["a"])]).PRVersionChange asciiToLower () [1] =
        Run.ret ((VersionChangePatch, none), ()) ∧
      ¬ ∃ vc,
        (tableConfig collidingTable [(1, ["a"])]).PRVersionChange asciiToLower () [1] =
            Run.ret ((vc, none), ()) ∧
          (tableConfig collidingTableReversed [(1, ["a"])]).PRVersionChange
            asciiToLower () [1] = Run.ret ((vc, none), ()) := by
  have h₁ : (tableConfig collidingTable [(1, ["a"])]).PRVersionChange asciiToLower () [1] =
      Run.ret ((VersionChangeMajor, none), ()) := by decide
  have h₂ : (tableConfig collidingTableReversed [(1, ["a"])]).PRVersionChange
      asciiToLower () [1] = Run.ret ((VersionChangePatch, none), ()) := by decide
  refine ⟨by decide, by decide, by decide, h₁, h₂, ?_⟩
  rintro ⟨vc, hv₁, hv₂⟩
  rw [h₁] at hv₁
  rw [h₂] at hv₂
  simp only [Run.ret.injEq, Prod.mk.injEq, and_true] at hv₁ hv₂
  rw [← hv₁] at hv₂
  exact absurd hv₂ (by decide)

/-- C6 as amended. With valid table values, table keys that are distinct after
lower-casing and a fetcher whose answer depends only on the identifier and is
never an error, `PRVersionChange` returns the same severity and error for every
permutation of the identifier list and every order in which the table is
visited, the lookups in the lower-cased table being the same in every order;
and validation and aggregation give the same result on every ordering of the
entries of one label map. -/
theorem PRVersionChange_perm {σ ε : Type} (toLower : String → String) (cfg cfg' : Config σ ε)
    (fetch : FetchPRLabels σ ε) (labelsOf : Int → List String) (st : σ) (ids ids' : List Int)
    (hfetcher : cfg.PRLabelFetcher = some fetch)
    (hvalid : ∀ e ∈ cfg.effectiveTable, VersionChange.valid e.2 = true)
    (hnd : (cfg.effectiveTable.map (fun e => toLower e.1)).Nodup)
    (hfetch : ∀ s, ∀ id ∈ ids, (fetch s id).1 = (labelsOf id, none))
    (hrequire : cfg'.RequireLabels = cfg.RequireLabels)
    (hsame : cfg'.PRLabelFetcher = cfg.PRLabelFetcher)
    (htable : cfg.effectiveTable.Perm cfg'.effectiveTable)
    (hperm : ids.Perm ids') :
    (∃ out st₁ st₂, cfg.PRVersionChange toLower st ids = Run.ret (out, st₁) ∧
        cfg.PRVersionChange toLower st ids' = Run.ret (out, st₂) ∧
        ∃ st₃, cfg'.PRVersionChange toLower st ids' = Run.ret (out, st₃)) ∧
      (∀ k, GoMap.get? (cfg'.labelValues toLower) k =
        GoMap.get? (cfg.labelValues toLower) k) ∧
      (∀ m m' : GoMap Int (List String), m.Perm m' → (GoMap.keys m).Nodup →
        cfg.requireLabels toLower m = cfg.requireLabels toLower m' ∧
          versionChangeLoop toLower cfg m VersionChangeNone =
            versionChangeLoop toLower cfg m' VersionChangeNone) := by
  refine ⟨?_, labelValues_get?_table_perm toLower cfg cfg' hnd htable, fun m m' h hmnd =>
    ⟨requireLabels_perm toLower cfg m m' h hmnd,
      versionChangeLoop_perm toLower cfg hvalid m m' h⟩⟩
  obtain ⟨out, st₁, st₂, h₁, h₂⟩ :=
    PRVersionChange_table_perm toLower cfg cfg fetch labelsOf st ids ids' hfetcher hvalid
      hnd hfetch rfl rfl (List.Perm.refl _) hperm
  obtain ⟨out', st₁', st₃, h₁', h₃⟩ :=
    PRVersionChange_table_perm toLower cfg cfg' fetch labelsOf st ids ids' hfetcher hvalid
      hnd hfetch hrequire hsame htable hperm
  rw [h₁] at h₁'
  simp only [Run.ret.injEq, Prod.mk.injEq] at h₁'
  rw [← h₁'.1] at h₃
  exact ⟨out, st₁, st₂, h₁, h₂, st₃, h₃⟩

/-- Witness of C6 as amended: the example batch in two orders under the default
table, and in the second order under the same table visited in another order. -/
theorem PRVersionChange_perm_witness :
    ((∃ out st₁ st₂,
        (exampleConfig true).PRVersionChange asciiToLower () [3, 1, 4, 2] =
            Run.ret (out, st₁) ∧
          (exampleConfig true).PRVersionChange asciiToLower () [1, 2, 3, 4] =
            Run.ret (out, st₂) ∧
          ∃ st₃, reorderedDefaultConfig.PRVersionChange asciiToLower () [1, 2, 3, 4] =
            Run.ret (out, st₃)) ∧
      (∀ k, GoMap.get? (reorderedDefaultConfig.labelValues asciiToLower) k =
        GoMap.get? ((exampleConfig true).labelValues asciiToLower) k) ∧
      (∀ m m' : GoMap Int (List String), m.Perm m' → (GoMap.keys m).Nodup →
        (exampleConfig true).requireLabels asciiToLower m =
            (exampleConfig true).requireLabels asciiToLower m' ∧
          versionChangeLoop asciiToLower (exampleConfig true) m VersionChangeNone =
            versionChangeLoop asciiToLower (exampleConfig true) m' VersionChangeNone)) ∧
    (exampleConfig true).PRVersionChange asciiToLower () [1, 2, 3, 4] =
      Run.ret ((0, some (Err.PRMissingLabelErr [3, 4])), ()) ∧
    reorderedDefaultConfig.PRVersionChange asciiToLower () [3, 1, 4, 2] =
      Run.ret ((0, some (Err.PRMissingLabelErr [3, 4])), ()) ∧
    (exampleConfig true).PRVersionChange asciiToLower () [2, 1] =
      Run.ret ((VersionChangeMinor, none), ()) ∧
    reorderedDefaultConfig.PRVersionChange asciiToLower () [1, 2] =
      Run.ret ((VersionChangeMinor, none), ()) :=
  ⟨PRVersionChange_perm asciiToLower (exampleConfig true) reorderedDefaultConfig
      (tableFetcher exampleLabels) (GoMap.get [] exampleLabels) () [3, 1, 4, 2] [1, 2, 3, 4]
      rfl (by decide) (by decide) (fun _ _ _ => rfl) rfl rfl (by decide) (by decide),
   by decide, by decide, by decide, by decide⟩

/-- Counterexample to C6 as stated. `minorTable` and `minorTableReversed` are
one map, with the valid values Minor for "B" and None for "b", visited in two
orders; the fetcher answers "b" for pull request 1 and "B" for pull request 2
and never fails. The request 1, 2 with the table visited in the first order
returns None, its permutation 2, 1 with the table visited in the second order
returns Minor, and so does the same request 1, 2. -/
theorem PRVersionChange_perm_depends_on_order :
    minorTable.Perm minorTableReversed ∧
      (GoMap.keys minorTable).Nodup ∧
      (∀ e ∈ minorTable, VersionChange.valid e.2 = true) ∧
      ([1, 2] : List Int).Perm [2, 1] ∧
      (tableConfig minorTable [(1, ["b"]), (2, ["B"])]).PRVersionChange asciiToLower ()
        [1, 2] = Run.ret ((VersionChangeNone, none), ()) ∧
      (tableConfig minorTableReversed [(1, ["b"]), (2, ["B"])]).PRVersionChange asciiToLower ()
        [2, 1] = Run.ret ((VersionChangeMinor, none), ()) ∧
      (tableConfig minorTableReversed [(1, ["b"]), (2, ["B"])]).PRVersionChange asciiToLower ()
        [1, 2] = Run.ret ((VersionChangeMinor, none), ()) ∧
      ¬ ∃ out,
        (tableConfig minorTable [(1, ["b"]), (2, ["B"])]).PRVersionChange asciiToLower ()
            [1, 2] = Run.ret (out, ()) ∧
          (tableConfig minorTableReversed [(1, ["b"]), (2, ["B"])]).PRVersionChange
            asciiToLower () [2, 1] = Run.ret (out, ()) := by
  have h₁ : (tableConfig minorTable [(1, ["b"]), (2, ["B"])]).PRVersionChange asciiToLower ()
      [1, 2] = Run.ret ((VersionChangeNone, none), ()) := by decide
  have h₂ : (tableConfig minorTableReversed [(1, ["b"]), (2, ["B"])]).PRVersionChange
      asciiToLower () [2, 1] = Run.ret ((VersionChangeMinor, none), ()) := by decide
  refine ⟨by decide, by decide, by decide, by decide, h₁, h₂, by decide, ?_⟩
  rintro ⟨out, ho₁, ho₂⟩
  rw [h₁] at ho₁
  rw [h₂] at ho₂
  simp only [Run.ret.injEq, Prod.mk.injEq, and_true] at ho₁ ho₂
  rw [← ho₁] at ho₂
  exact absurd ho₂ (by decide)

end ConventionalPulls
